import Mathlib

/-!
Verification of the row-span / data-store core of the tui.grid engine.

The definitions below are a shallow embedding of the TypeScript sources
  src/helper/rowSpan.ts, src/store/data.ts, src/dispatch/focus.ts.
JavaScript objects keyed by column name are embedded as association lists
(`List (String × _)`) with JS object semantics: a read takes the first
binding, a write replaces the first binding in place or appends a fresh
one at the end, `Object.keys` is the list of keys in insertion order, and
the spread `{...a, ...b}` keeps `a`'s key order while `b`'s values win.
JS numbers used as signed counters are embedded as `Int`; row keys are
embedded as `Nat` (the engine assigns numeric row keys).  Code paths on
which the original would throw a `TypeError` (property access on
`undefined`, an array read out of bounds) are embedded as `Option` with
`none` for the throw.
-/

/-- A cell value (the subset of JS values the engine stores in cells). -/
inductive CellValue where
  | null : CellValue
  | undef : CellValue
  | str : String → CellValue
  | num : Int → CellValue
  | boolv : Bool → CellValue
  deriving DecidableEq, Repr

/-- `RowSpan` record from store/types: membership data of one merged block.
`count` is `spanCount` on the main row and the negative offset from the
main row on a sub row. -/
structure RowSpan where
  mainRow : Bool
  mainRowKey : Nat
  count : Int
  spanCount : Int
  deriving DecidableEq, Repr

/-- Association-list lookup: JS `obj[c]` (first binding wins). -/
def alistFind {α : Type} (m : List (String × α)) (c : String) : Option α :=
  match m with
  | [] => none
  | e :: es => if e.1 = c then some e.2 else alistFind es c

/-- Association-list write: JS `obj[c] = v` (replace in place or append). -/
def alistSet {α : Type} (m : List (String × α)) (c : String) (v : α) : List (String × α) :=
  match m with
  | [] => [(c, v)]
  | e :: es => if e.1 = c then (c, v) :: es else e :: alistSet es c v

/-- Association-list delete: JS `delete obj[c]`. -/
def alistErase {α : Type} (m : List (String × α)) (c : String) : List (String × α) :=
  match m with
  | [] => []
  | e :: es => if e.1 = c then es else e :: alistErase es c

/-- JS `Object.keys(obj)` in insertion order. -/
def alistKeys {α : Type} (m : List (String × α)) : List String :=
  m.map Prod.fst

/-- `RowSpanMap`: column name → `RowSpan`, one JS object per row. -/
def RowSpanMap : Type := List (String × RowSpan)

instance : DecidableEq RowSpanMap := by
  unfold RowSpanMap
  infer_instance

instance : Membership (String × RowSpan) RowSpanMap := by
  unfold RowSpanMap
  infer_instance

/-- A raw row (`Row` from store/types).  Only the fields the verified
claims touch are embedded: `rowKey`, the column-name-keyed cell values,
and `rowSpanMap`.  (`sortKey`, `uniqueKey` and `_attributes` play no role
in the claims below.) -/
structure Row where
  rowKey : Nat
  values : List (String × CellValue)
  rowSpanMap : RowSpanMap
  deriving DecidableEq

/-- JS `row[columnName]` (missing key reads as `undefined`). -/
def rowValue (r : Row) (c : String) : CellValue :=
  (alistFind r.values c).getD CellValue.undef

/-- One sort column of `SortState`. -/
structure SortColumn where
  columnName : String
  ascending : Bool
  deriving DecidableEq, Repr

/-- `SortState` from store/types. The store always keeps at least one
column (the synthetic `sortKey` natural order by default). -/
structure SortState where
  columns : List SortColumn
  deriving DecidableEq, Repr

/-- The slice of the `Data` store object read by the rowSpan helpers. -/
structure DataState where
  rawData : List Row
  sortState : SortState

/-- `ColumnInfo` (only the `name` field is read by the rowSpan helpers). -/
structure ColumnInfo where
  name : String
  deriving DecidableEq, Repr

/-- span entry of row `i` of a row list, for column `c` (reads through
`data[i].rowSpanMap[c]`). -/
def spanAt (d : List Row) (i : Nat) (c : String) : Option RowSpan :=
  match d.get? i with
  | some r => alistFind r.rowSpanMap c
  | none => none

/-- cell value of row `i` of a row list, for column `c`. -/
def valueAt (d : List Row) (i : Nat) (c : String) : Option CellValue :=
  (d.get? i).map (fun r => rowValue r c)

/-- Index of the first row with the given key (JS `Array#findIndex`
without the `-1` encoding). -/
def findRowIdx (data : List Row) (key : Nat) : Option Nat :=
  match data with
  | [] => none
  | r :: rs => if r.rowKey = key then some 0 else (findRowIdx rs key).map (· + 1)

/-- helper/common `findPropIndex('rowKey', key, data)`: index of the first
row with the given key, `-1` when there is none (JS `findIndex`). -/
def findPropIndexKey (key : Nat) (data : List Row) : Int :=
  match findRowIdx data key with
  | some i => (i : Int)
  | none => -1

/-- JS array read at a possibly negative index. -/
def listGetI {α : Type} (l : List α) (i : Int) : Option α :=
  if 0 ≤ i then l.get? i.toNat else none

/-! ### helper/rowSpan.ts -/

/-- `isRowSpanEnabled(sortState)`:
`sortState.columns[0].columnName === 'sortKey'`.  The store initializes
`columns` nonempty; on an empty list the JS would throw, the embedding
returns `false` (no claim exercises that state). -/
def isRowSpanEnabled (s : SortState) : Bool :=
  match s.columns with
  | col :: _ => col.columnName == "sortKey"
  | [] => false

/-- `createRowSpan(mainRow, rowKey, count, spanCount)`. -/
def createRowSpan (mainRow : Bool) (rowKey : Nat) (count : Int) (spanCount : Int) : RowSpan :=
  { mainRow := mainRow, mainRowKey := rowKey, count := count, spanCount := spanCount }

/-- `getRowSpan(rowIndex, columnName, data)`:
`data[rowIndex].rowSpanMap[columnName]` (`none` both for a missing entry
and — where the JS would throw — for an out-of-range row index). -/
def getRowSpan (rowIndex : Nat) (c : String) (data : List Row) : Option RowSpan :=
  match data.get? rowIndex with
  | some r => alistFind r.rowSpanMap c
  | none => none

/-- `getRowSpanByRowKey(rowKey, columnName, data)`: `null` when no row has
the key, else the found row's entry (`... || null`). -/
def getRowSpanByRowKey (rowKey : Nat) (c : String) (data : List Row) : Option RowSpan :=
  match findRowIdx data rowKey with
  | some i => getRowSpan i c data
  | none => none

/-- One iteration of the column loop in `getRowSpanRange` for one column
index: reads `rawData[startRowIndex]`, `rawData[endRowIndex]` and
`visibleColumns[index].name`, widens the start up to the topmost row of a
span touching the start boundary and the end down to the bottommost.
`none` embeds the JS `TypeError` on an out-of-range access. -/
def colScanStep (rawData : List Row) (cols : List ColumnInfo) (st en : Int) (cIdx : Int) :
    Option (Int × Int) :=
  match listGetI rawData st, listGetI rawData en, listGetI cols cIdx with
  | some sRow, some eRow, some col =>
    let st' :=
      match alistFind sRow.rowSpanMap col.name with
      | some rs =>
        let top := findPropIndexKey rs.mainRowKey rawData
        if top < st then top else st
      | none => st
    let en' :=
      match alistFind eRow.rowSpanMap col.name with
      | some rs =>
        let bottom := findPropIndexKey rs.mainRowKey rawData + rs.spanCount - 1
        if en < bottom then bottom else en
      | none => en
    some (st', en')
  | _, _, _ => none

/-- The column loop of `getRowSpanRange`, threading the mutated
`startRowIndex` / `endRowIndex` through the listed column indices. -/
def colScan (rawData : List Row) (cols : List ColumnInfo) :
    List Int → Int × Int → Option (Int × Int)
  | [], r => some r
  | cIdx :: rest, r =>
    match colScanStep rawData cols r.1 r.2 cIdx with
    | some r' => colScan rawData cols rest r'
    | none => none

/-- `[a, a+1, ..., b]` (the inclusive JS `for` range). -/
def intRangeIncl (a b : Int) : List Int :=
  (List.range (b + 1 - a).toNat).map (fun j => a + (j : Int))

/-- `getRowSpanRange(rowRange, colRange, visibleColumns, data)`, with an
explicit fuel for the fixed-point recursion.  The source recursion
terminates because the range only widens and stays inside the array (an
escape throws); the wrapper below passes fuel exceeding the maximal
number of strict widenings, so fuel exhaustion (`none`) is unreachable. -/
def getRowSpanRangeF (rawData : List Row) (cols : List ColumnInfo) :
    Nat → Int × Int → Int × Int → Option (Int × Int)
  | 0, _, _ => none
  | fuel + 1, rr, cr =>
    match colScan rawData cols (intRangeIncl cr.1 cr.2) rr with
    | some r' =>
      if r'.1 ≠ rr.1 ∨ r'.2 ≠ rr.2 then getRowSpanRangeF rawData cols fuel r' cr
      else some r'
    | none => none

/-- `getRowSpanRange` proper. -/
def getRowSpanRange (rowRange colRange : Int × Int) (cols : List ColumnInfo) (d : DataState) :
    Option (Int × Int) :=
  getRowSpanRangeF d.rawData cols (2 * d.rawData.length + 1) rowRange colRange

/-- helper/selection `getSortedRange`.  Modelled from the spec: ranges may
be given end-before-start and are normalised to ascending order (the
helper file is not part of the provided sources). -/
def getSortedRange (r : Int × Int) : Int × Int :=
  if r.2 < r.1 then (r.2, r.1) else r

/-- `getMaxRowSpanRange(rowRange, colRange, visibleColumns, focusRowIndex, data)`. -/
def getMaxRowSpanRange (rowRange colRange : Int × Int) (cols : List ColumnInfo)
    (focusRowIndex : Option Int) (d : DataState) : Option (Int × Int) :=
  let sortedColRange := getSortedRange colRange
  let endRowIndex := rowRange.2
  let startRowIndex :=
    match focusRowIndex with
    | some f => if rowRange.1 ≠ f then f else rowRange.1
    | none => rowRange.1
  let sortedRowRange := getSortedRange (startRowIndex, endRowIndex)
  match getRowSpanRange sortedRowRange sortedColRange cols d with
  | some r => some (if endRowIndex < startRowIndex then (r.2, r.1) else r)
  | none => none

/-- `getRowRangeWithRowSpan(rowRange, colRange, visibleColumnsWithRowHeader, rowIndex, data)`. -/
def getRowRangeWithRowSpan (rowRange colRange : Int × Int) (cols : List ColumnInfo)
    (rowIndex : Option Int) (d : DataState) : Option (Int × Int) :=
  if isRowSpanEnabled d.sortState then
    getMaxRowSpanRange rowRange colRange cols rowIndex d
  else some rowRange

/-- The loop body of `updateSubRowSpan`, iterated `fuel` times starting at
`offset`: `data[mainRowIndex + offset].rowSpanMap[columnName] =
createRowSpan(false, mainRow.rowKey, -offset, spanCount)`.  `none` embeds
the JS `TypeError` when `data[mainRowIndex + offset]` is `undefined`. -/
def updateSubRowSpanGo (key : Nat) (c : String) (spanCount : Int) (mIdx : Int) :
    Nat → Int → List Row → Option (List Row)
  | 0, _, data => some data
  | fuel + 1, offset, data =>
    let i := mIdx + offset
    if 0 ≤ i then
      match data.get? i.toNat with
      | some row =>
        updateSubRowSpanGo key c spanCount mIdx fuel (offset + 1)
          (data.set i.toNat
            { row with rowSpanMap := alistSet row.rowSpanMap c (createRowSpan false key (-offset) spanCount) })
      | none => none
    else none

/-- `updateSubRowSpan(data, mainRow, columnName, startOffset, spanCount)`:
re-links the member rows at offsets `startOffset .. spanCount-1` below the
main row (located afresh by `mainRow.rowKey`).  The main row is passed by
its `rowKey`, the only field the source reads of it. -/
def updateSubRowSpan (data : List Row) (mainRowKey : Nat) (c : String)
    (startOffset spanCount : Int) : Option (List Row) :=
  let mIdx := findPropIndexKey mainRowKey data
  updateSubRowSpanGo mainRowKey c spanCount mIdx (spanCount - startOffset).toNat startOffset data

/-- The body of the per-column `forEach` of `updateRowSpanWhenAppend`.
`prevRow` is the live row `data[pIdx]` (the caller always passes a row of
`rawData`; the object aliasing of the source is embedded by indexing). -/
def appendStep (pIdx : Nat) (extendPrevRowSpan : Bool) (data : List Row) (c : String) :
    Option (List Row) :=
  match data.get? pIdx with
  | none => none
  | some prevRow =>
    match alistFind prevRow.rowSpanMap c with
    | none => some data
    | some sp =>
      let keyRow := sp.mainRow
      match (if keyRow then some pIdx else findRowIdx data sp.mainRowKey) with
      | none => none
      | some mIdx =>
        match data.get? mIdx with
        | none => none
        | some mainRow =>
          match alistFind mainRow.rowSpanMap c with
          | none => none
          | some msp =>
            let startOffset : Int := if keyRow || extendPrevRowSpan then 1 else -sp.count + 1
            if startOffset < msp.spanCount then
              let newSpan := msp.spanCount + 1
              let msp2 := { msp with count := msp.count + 1, spanCount := newSpan }
              let data1 := data.set mIdx
                { mainRow with rowSpanMap := alistSet mainRow.rowSpanMap c msp2 }
              updateSubRowSpan data1 mainRow.rowKey c 1 newSpan
            else some data

/-- Per-column fold shared by the append / remove maintainers (the
`Object.keys(...).forEach` over a snapshot of the key list; a thrown
`TypeError` aborts the whole call). -/
def stepFold (step : List Row → String → Option (List Row)) :
    List String → List Row → Option (List Row)
  | [], data => some data
  | c :: cs, data =>
    match step data c with
    | some d => stepFold step cs d
    | none => none

/-- `updateRowSpanWhenAppend(data, prevRow, extendPrevRowSpan)` with
`prevRow = data[pIdx]`. -/
def updateRowSpanWhenAppend (data : List Row) (pIdx : Nat) (extendPrevRowSpan : Bool) :
    Option (List Row) :=
  match data.get? pIdx with
  | none => none
  | some prevRow =>
    if prevRow.rowSpanMap.isEmpty then some data
    else stepFold (appendStep pIdx extendPrevRowSpan) (alistKeys prevRow.rowSpanMap) data

/-- JS `data[i][c] = v` for a row list (unreachable no-op when `i` is out
of range: every caller below has just read the row). -/
def setValueAt (d : List Row) (i : Nat) (c : String) (v : CellValue) : List Row :=
  match d.get? i with
  | some r => d.set i { r with values := alistSet r.values c v }
  | none => d

/-- The shared tail of the per-column body of `updateRowSpanWhenRemove`:
`if (spanCount > 1) { relink } else { delete mainRow.rowSpanMap[columnName] }`
with the main row at index `mIdx`. -/
def removePhase2 (d : List Row) (mIdx : Nat) (spanCount : Int) (c : String) :
    Option (List Row) :=
  match d.get? mIdx with
  | none => none
  | some mrow =>
    if 1 < spanCount then
      match alistFind mrow.rowSpanMap c with
      | none => none
      | some ms =>
        let ms2 := { ms with count := spanCount, spanCount := spanCount }
        let d3 := d.set mIdx { mrow with rowSpanMap := alistSet mrow.rowSpanMap c ms2 }
        updateSubRowSpan d3 mrow.rowKey c 1 spanCount
      else some (d.set mIdx { mrow with rowSpanMap := alistErase mrow.rowSpanMap c })

/-- The body of the per-column `forEach` of `updateRowSpanWhenRemove`.
`removedRow` has already been spliced out of `data`; `nextRow` is the live
row `data[nIdx]` that followed it. -/
def removeStep (removedRow : Row) (nIdx : Nat) (keepRowSpanData : Bool)
    (data : List Row) (c : String) : Option (List Row) :=
  match alistFind removedRow.rowSpanMap c with
  | none => none
  | some rsp =>
    if rsp.mainRow then
      match data.get? nIdx with
      | none => none
      | some nextRow =>
        let spanCount := rsp.count - 1
        let step1 : Option (List Row) :=
          if 1 < spanCount then
            match alistFind nextRow.rowSpanMap c with
            | none => none
            | some ns =>
              let ns2 := { ns with mainRowKey := nextRow.rowKey, mainRow := true }
              some (data.set nIdx
                { nextRow with rowSpanMap := alistSet nextRow.rowSpanMap c ns2 })
          else some data
        match step1 with
        | none => none
        | some data1 =>
          let data2 :=
            if keepRowSpanData then setValueAt data1 nIdx c (rowValue removedRow c) else data1
          removePhase2 data2 nIdx spanCount c
    else
      match findRowIdx data rsp.mainRowKey with
      | none => none
      | some mIdx =>
        match data.get? mIdx with
        | none => none
        | some mrow =>
          match alistFind mrow.rowSpanMap c with
          | none => none
          | some ms => removePhase2 data mIdx (ms.spanCount - 1) c

/-- `updateRowSpanWhenRemove(data, removedRow, nextRow, keepRowSpanData)`
with `nextRow = data[nIdx]`. -/
def updateRowSpanWhenRemove (data : List Row) (removedRow : Row) (nIdx : Nat)
    (keepRowSpanData : Bool) : Option (List Row) :=
  if removedRow.rowSpanMap.isEmpty then some data
  else stepFold (removeStep removedRow nIdx keepRowSpanData) (alistKeys removedRow.rowSpanMap) data

/-! ### store/data.ts — dataset construction -/

/-- The `rowSpan` attribute of an input row (`_attributes.rowSpan`):
column name → declared span size. -/
def RowSpanDecl : Type := List (String × Int)

instance : DecidableEq RowSpanDecl := by
  unfold RowSpanDecl
  infer_instance

/-- An input record (`OptRow`).  Only the fields feeding `rowSpanMap`
construction and cell values are embedded; `createData` is embedded for
a dataset without a configured key column, so `rowKey` is the row index
(the engine's default for a fresh load). -/
structure OptRow where
  rowSpan : RowSpanDecl
  values : List (String × CellValue)

/-- `createMainRowSpanMap(rowSpan, rowKey)`: one main entry per declared
column (`createRowSpan(true, rowKey, spanCount, spanCount)`).  A JS
object literal cannot repeat a key, so the declaration's keys map
one-to-one. -/
def createMainRowSpanMap (rowSpan : RowSpanDecl) (rowKey : Nat) : RowSpanMap :=
  rowSpan.map (fun e => (e.1, createRowSpan true rowKey e.2 e.2))

/-- `createSubRowSpan(prevRowSpanMap)`: a sub entry per previous-row entry
whose span still extends past the new row (`spanCount > 1 - count`), with
`count` stepped to `-1` after the main row and decremented below a sub. -/
def createSubRowSpan (prevRowSpanMap : RowSpanMap) : RowSpanMap :=
  prevRowSpanMap.filterMap (fun e =>
    if e.2.spanCount > 1 - e.2.count then
      some (e.1, createRowSpan false e.2.mainRowKey (if 0 ≤ e.2.count then -1 else e.2.count - 1) e.2.spanCount)
    else none)

/-- JS object spread `{...a, ...b}`: `a`'s key order with `b`'s values
winning, then `b`'s fresh keys in order. -/
def mergeMaps (a b : RowSpanMap) : RowSpanMap :=
  a.map (fun e => ((e.1 : String), ((alistFind b e.1).getD e.2 : RowSpan)))
    ++ b.filter (fun e => (alistFind a e.1).isNone)

/-- `createRowSpanMap(row, rowSpan, prevRow)`. -/
def createRowSpanMap (rowSpan : RowSpanDecl) (rowKey : Nat) (prevRow : Option Row) : RowSpanMap :=
  let mainRowSpanMap : RowSpanMap :=
    if rowSpan.isEmpty then [] else createMainRowSpanMap rowSpan rowKey
  let subRowSpanMap : RowSpanMap :=
    match prevRow with
    | some p => if p.rowSpanMap.isEmpty then [] else createSubRowSpan p.rowSpanMap
    | none => []
  mergeMaps mainRowSpanMap subRowSpanMap

/-- `createRawRow(row, index, defaultValues, {prevRow})` for a dataset
without a key column: `rowKey = index` and the row-span map chains from
`prevRow`.  (`sortKey`/`uniqueKey`/attribute normalisation and column
default values do not affect any claim and are not embedded.) -/
def createRawRow (row : OptRow) (index : Nat) (prevRow : Option Row) : Row :=
  { rowKey := index, values := row.values, rowSpanMap := createRowSpanMap row.rowSpan index prevRow }

/-- The forward pass of `createData`: each row is built with the
previously *built* row as `prevRow` (the source maps over the input array
it mutates in place, so `rows[index - 1]` is the already-built row). -/
def createDataGo : List OptRow → Nat → Option Row → List Row
  | [], _, _ => []
  | o :: os, i, prev =>
    let r := createRawRow o i prev
    r :: createDataGo os (i + 1) (some r)

/-- `createData(data, column)` for a flat (non-tree) dataset without a key
column: the raw-row list built in one forward pass in natural order. -/
def createData (opts : List OptRow) : List Row :=
  createDataGo opts 0 none

/-! ### store/data.ts — validation -/

/-- `ValidationType` codes. -/
inductive ValidationType where
  | REQUIRED | TYPE_STRING | TYPE_NUMBER | MIN | MAX | REGEXP | VALIDATOR_FN
  deriving DecidableEq, Repr

/-- The two declarable cell data types. -/
inductive CellDataType where
  | string | number
  deriving DecidableEq, Repr

/-- A column's `validation` option.  `regExp.test` is embedded as a
string predicate and `validatorFn` as a cell-value predicate (both are
opaque plugins). -/
structure Validation where
  required : Bool
  dataType : Option CellDataType
  min : Option Int
  max : Option Int
  regExp : Option (String → Bool)
  validatorFn : Option (CellValue → Bool)

/-- helper/common `isString`.  Modelled from the spec (the common helper
file is not in the provided sources): a JS string value. -/
def isStringB : CellValue → Bool
  | CellValue.str _ => true
  | _ => false

/-- helper/common `isNumber`.  Modelled from the spec: a JS number value. -/
def isNumberB : CellValue → Bool
  | CellValue.num _ => true
  | _ => false

/-- helper/common `isBlank`.  Modelled from the spec: a blank value is
`null`, `undefined`, or the empty string. -/
def isBlankB : CellValue → Bool
  | CellValue.null => true
  | CellValue.undef => true
  | CellValue.str s => s == ""
  | _ => false

/-- `min && isNumber(value) && value < min` — note JS truthiness: a bound
of `0` is falsy and never triggers. -/
def minViolated (min : Option Int) (value : CellValue) : Bool :=
  match min, value with
  | some m, CellValue.num n => m != 0 && n < m
  | _, _ => false

/-- `max && isNumber(value) && value > max` (same truthiness caveat). -/
def maxViolated (max : Option Int) (value : CellValue) : Bool :=
  match max, value with
  | some m, CellValue.num n => m != 0 && m < n
  | _, _ => false

/-- `regExp && isString(value) && !regExp.test(value)`. -/
def regExpViolated (regExp : Option (String → Bool)) (value : CellValue) : Bool :=
  match regExp, value with
  | some test, CellValue.str s => !test s
  | _, _ => false

/-- `validatorFn && !validatorFn(value)`. -/
def validatorFnViolated (fn : Option (CellValue → Bool)) (value : CellValue) : Bool :=
  match fn with
  | some f => !f value
  | none => false

/-- `getValidationCode(value, validation)`: the `invalidStates` pushed in
source order. -/
def getValidationCode (value : CellValue) (validation : Option Validation) :
    List ValidationType :=
  match validation with
  | none => []
  | some v =>
    (if v.required && isBlankB value then [ValidationType.REQUIRED] else [])
      ++ (if v.dataType == some CellDataType.string && !isStringB value then [ValidationType.TYPE_STRING] else [])
      ++ (if v.dataType == some CellDataType.number && !isNumberB value then [ValidationType.TYPE_NUMBER] else [])
      ++ (if minViolated v.min value then [ValidationType.MIN] else [])
      ++ (if maxViolated v.max value then [ValidationType.MAX] else [])
      ++ (if regExpViolated v.regExp value then [ValidationType.REGEXP] else [])
      ++ (if validatorFnViolated v.validatorFn value then [ValidationType.VALIDATOR_FN] else [])

/-! ### dispatch/focus.ts — changeFocus -/

/-- The slice of `FocusState` that `changeFocus` reads and writes. -/
structure FocusState where
  rowKey : Option Nat
  columnName : Option String
  prevRowKey : Option Nat
  prevColumnName : Option String
  deriving DecidableEq, Repr

/-- JS truthiness of a `RowKey | null` argument (`null` and the row key
`0` are both falsy). -/
def truthyKey : Option Nat → Bool
  | some k => k != 0
  | none => false

/-- JS truthiness of a `string | null` argument. -/
def truthyStr : Option String → Bool
  | some s => s != ""
  | none => false

/-- query/focus `isFocusedCell`.  Modelled from the spec: the target
address equals the currently focused address. -/
def isFocusedCell (f : FocusState) (rowKey : Option Nat) (columnName : Option String) : Bool :=
  f.rowKey == rowKey && f.columnName == columnName

/-- `changeFocus(store, rowKey, columnName, id)`.  External collaborators
are embedded as parameters: `hiddenCols` is helper/column `isHiddenColumn`
(modelled from the spec: the column's hidden flag) and `stopped` is the
result of `gridEvent.isStopped()` after the cancelable `focusChange`
notification.  The source performs the four focus-field assignments in
the order prevColumnName, prevRowKey, columnName, rowKey, so both `prev`
fields receive the address focused *before* the call. -/
def changeFocus (d : DataState) (focus : FocusState) (hiddenCols : String → Bool)
    (rowKey : Option Nat) (columnName : Option String) (stopped : Bool) : FocusState :=
  if isFocusedCell focus rowKey columnName
      || (truthyStr columnName && (match columnName with
            | some cn => hiddenCols cn
            | none => false)) then
    focus
  else if stopped then focus
  else
    let focusRowKey :=
      if truthyKey rowKey && truthyStr columnName && isRowSpanEnabled d.sortState then
        match rowKey, columnName with
        | some rk, some cn =>
          match getRowSpanByRowKey rk cn d.rawData with
          | some rs => some rs.mainRowKey
          | none => rowKey
        | _, _ => rowKey
      else rowKey
    { rowKey := focusRowKey, columnName := columnName,
      prevRowKey := focus.rowKey, prevColumnName := focus.columnName }

/-! ### Derived state predicates used by the proofs -/

/-- The row-key column of a row list. -/
def rowKeys (d : List Row) : List Nat :=
  d.map (fun r => r.rowKey)

/-- Every row's span map has JS-object keys (no duplicate column name).
Holds for any state reachable from real JS objects and is preserved by
every maintainer below. -/
def MapsNodup (d : List Row) : Prop :=
  ∀ r ∈ d, (alistKeys r.rowSpanMap).Nodup

/-- What a per-column step for a *different* column preserves: length,
row keys, the span entries of column `c`, the cell values of column `c`,
and well-formedness of the key sets. -/
structure ColFrame (c : String) (d d' : List Row) : Prop where
  len : d'.length = d.length
  keys : rowKeys d' = rowKeys d
  span : ∀ i, spanAt d' i c = spanAt d i c
  value : ∀ i, valueAt d' i c = valueAt d i c
  nodup : MapsNodup d → MapsNodup d'

/-- Modelled from the spec: the per-code validation conditions of §4.2
("REQUIRED (blank value on a required column), TYPE_STRING / TYPE_NUMBER
(value fails declared type), MIN / MAX (numeric bound violated), REGEXP
(pattern mismatch), VALIDATOR_FN (user predicate false)"), amended for JS
truthiness: a numeric bound equal to `0` is falsy and never enforced. -/
def specValidationCond (code : ValidationType) (value : CellValue) (v : Validation) : Prop :=
  match code with
  | ValidationType.REQUIRED => v.required = true ∧ isBlankB value = true
  | ValidationType.TYPE_STRING => v.dataType = some CellDataType.string ∧ isStringB value = false
  | ValidationType.TYPE_NUMBER => v.dataType = some CellDataType.number ∧ isNumberB value = false
  | ValidationType.MIN => ∃ m n, v.min = some m ∧ m ≠ 0 ∧ value = CellValue.num n ∧ n < m
  | ValidationType.MAX => ∃ m n, v.max = some m ∧ m ≠ 0 ∧ value = CellValue.num n ∧ m < n
  | ValidationType.REGEXP => ∃ t s, v.regExp = some t ∧ value = CellValue.str s ∧ t s = false
  | ValidationType.VALIDATOR_FN => ∃ f, v.validatorFn = some f ∧ f value = false

/-! ### Basic lemmas on the association-list embedding -/

theorem alistFind_set_self {α : Type} (m : List (String × α)) (c : String) (v : α) :
    alistFind (alistSet m c v) c = some v := by
  induction m with
  | nil => simp [alistSet, alistFind]
  | cons e es ih =>
    by_cases h : e.1 = c
    · simp [alistSet, if_pos h, alistFind]
    · simp only [alistSet, if_neg h, alistFind, if_neg h, ih]

theorem alistFind_set_ne {α : Type} (m : List (String × α)) (c c' : String) (v : α)
    (h : c' ≠ c) : alistFind (alistSet m c v) c' = alistFind m c' := by
  have hcc : c ≠ c' := h.symm
  induction m with
  | nil => simp only [alistSet, alistFind, if_neg hcc]
  | cons e es ih =>
    by_cases he : e.1 = c
    · subst he
      simp only [alistSet, if_pos rfl, alistFind, if_neg hcc]
    · simp only [alistSet, if_neg he, alistFind, ih]

theorem alistFind_erase_ne {α : Type} (m : List (String × α)) (c c' : String)
    (h : c' ≠ c) : alistFind (alistErase m c) c' = alistFind m c' := by
  have hcc : c ≠ c' := h.symm
  induction m with
  | nil => simp only [alistErase]
  | cons e es ih =>
    by_cases he : e.1 = c
    · subst he
      simp only [alistErase, if_pos rfl, alistFind, if_neg hcc]
      simp
    · simp only [alistErase, if_neg he, alistFind, ih]

theorem alistFind_eq_none_of_not_mem_keys {α : Type} (m : List (String × α)) (c : String)
    (h : c ∉ alistKeys m) : alistFind m c = none := by
  induction m with
  | nil => simp [alistFind]
  | cons e es ih =>
    have h1 : e.1 ≠ c := by
      intro hh
      exact h (by simp [alistKeys, hh])
    have h2 : c ∉ alistKeys es := by
      intro hh
      exact h (by simp [alistKeys] at hh ⊢; exact Or.inr hh)
    simp only [alistFind, if_neg h1, ih h2]

theorem alistFind_isSome_of_mem_keys {α : Type} (m : List (String × α)) (c : String)
    (h : c ∈ alistKeys m) : (alistFind m c).isSome := by
  induction m with
  | nil => simp [alistKeys] at h
  | cons e es ih =>
    by_cases he : e.1 = c
    · simp [alistFind, he]
    · have h2 : c ∈ alistKeys es := by
        simp [alistKeys] at h ⊢
        rcases h with h | h
        · exact absurd h (fun hh => he hh.symm)
        · exact h
      simp only [alistFind, if_neg he]
      exact ih h2

theorem alistFind_erase_self {α : Type} (m : List (String × α)) (c : String)
    (h : (alistKeys m).Nodup) : alistFind (alistErase m c) c = none := by
  induction m with
  | nil => simp [alistErase, alistFind]
  | cons e es ih =>
    simp only [alistKeys, List.map_cons, List.nodup_cons] at h
    by_cases he : e.1 = c
    · subst he
      simp only [alistErase, if_pos rfl]
      exact alistFind_eq_none_of_not_mem_keys es e.1 h.1
    · simp only [alistErase, if_neg he, alistFind, if_neg he]
      exact ih h.2

theorem alistKeys_set {α : Type} (m : List (String × α)) (c : String) (v : α) :
    alistKeys (alistSet m c v) = if c ∈ alistKeys m then alistKeys m else alistKeys m ++ [c] := by
  induction m with
  | nil => simp [alistSet, alistKeys]
  | cons e es ih =>
    by_cases he : e.1 = c
    · subst he
      simp [alistSet, alistKeys]
    · have hne : ¬(c = e.1) := fun hh => he hh.symm
      have hstep : alistKeys (alistSet (e :: es) c v) = e.1 :: alistKeys (alistSet es c v) := by
        simp [alistSet, if_neg he, alistKeys]
      rw [hstep, ih]
      by_cases hm : c ∈ List.map Prod.fst es
      · simp only [alistKeys]
        simp [List.mem_cons, hm, hne]
      · simp only [alistKeys]
        simp [List.mem_cons, hm, hne]

theorem alistKeys_set_nodup {α : Type} (m : List (String × α)) (c : String) (v : α)
    (h : (alistKeys m).Nodup) : (alistKeys (alistSet m c v)).Nodup := by
  rw [alistKeys_set]
  by_cases hm : c ∈ alistKeys m
  · simpa [hm]
  · simp only [hm, if_false]
    simpa [List.nodup_append] using ⟨h, hm⟩

theorem alistKeys_erase_sublist {α : Type} (m : List (String × α)) (c : String) :
    (alistKeys (alistErase m c)).Sublist (alistKeys m) := by
  induction m with
  | nil => simp [alistErase, alistKeys]
  | cons e es ih =>
    by_cases he : e.1 = c
    · simp only [alistErase, if_pos he, alistKeys, List.map_cons]
      exact List.sublist_cons_self _ _
    · simp only [alistErase, if_neg he, alistKeys, List.map_cons]
      exact ih.cons₂ _

theorem alistKeys_erase_nodup {α : Type} (m : List (String × α)) (c : String)
    (h : (alistKeys m).Nodup) : (alistKeys (alistErase m c)).Nodup :=
  (alistKeys_erase_sublist m c).nodup h

theorem mem_keys_of_alistFind_isSome {α : Type} (m : List (String × α)) (c : String)
    (h : (alistFind m c).isSome) : c ∈ alistKeys m := by
  by_contra hm
  rw [alistFind_eq_none_of_not_mem_keys m c hm] at h
  simp at h

/-! ### List index lemmas -/

theorem get?_set_self {α : Type} (l : List α) (i : Nat) (a : α) (h : i < l.length) :
    (l.set i a).get? i = some a := by
  induction l generalizing i with
  | nil => simp at h
  | cons x xs ih =>
    cases i with
    | zero => simp [List.set]
    | succ n =>
      simp only [List.set, List.get?]
      exact ih n (by simpa using h)

theorem get?_set_other {α : Type} (l : List α) (i j : Nat) (a : α) (h : i ≠ j) :
    (l.set i a).get? j = l.get? j := by
  induction l generalizing i j with
  | nil => simp [List.set]
  | cons x xs ih =>
    cases i with
    | zero =>
      cases j with
      | zero => exact absurd rfl h
      | succ m => simp [List.set]
    | succ n =>
      cases j with
      | zero => simp [List.set]
      | succ m =>
        simp only [List.set, List.get?]
        exact ih n m (fun hh => h (by rw [hh]))

theorem set_self_of_get? {α : Type} (l : List α) (i : Nat) (a : α) (h : l.get? i = some a) :
    l.set i a = l := by
  induction l generalizing i with
  | nil => simp [List.set]
  | cons x xs ih =>
    cases i with
    | zero =>
      simp only [List.get?] at h
      cases h
      simp [List.set]
    | succ n =>
      simp only [List.get?] at h
      simp [List.set, ih n h]

theorem get?_some_of_lt {α : Type} (l : List α) (i : Nat) (h : i < l.length) :
    ∃ a, l.get? i = some a := by
  induction l generalizing i with
  | nil => simp at h
  | cons x xs ih =>
    cases i with
    | zero => exact ⟨x, rfl⟩
    | succ n => exact ih n (by simpa using h)

theorem lt_of_get?_some {α : Type} (l : List α) (i : Nat) (a : α) (h : l.get? i = some a) :
    i < l.length := by
  induction l generalizing i with
  | nil => simp [List.get?] at h
  | cons x xs ih =>
    cases i with
    | zero => simp
    | succ n =>
      simp only [List.get?] at h
      simpa using Nat.succ_lt_succ (ih n h)

/-! ### Row keys and key search -/

theorem rowKeys_set (d : List Row) (i : Nat) (r r' : Row) (hget : d.get? i = some r)
    (hkey : r'.rowKey = r.rowKey) : rowKeys (d.set i r') = rowKeys d := by
  induction d generalizing i with
  | nil => simp [List.set]
  | cons x xs ih =>
    cases i with
    | zero =>
      simp only [List.get?] at hget
      cases hget
      simp [List.set, rowKeys, hkey]
    | succ n =>
      simp only [List.get?] at hget
      simp only [List.set, rowKeys, List.map_cons]
      have := ih n hget
      simp only [rowKeys] at this
      rw [this]

theorem findRowIdx_congr (d d' : List Row) (h : rowKeys d' = rowKeys d) (k : Nat) :
    findRowIdx d' k = findRowIdx d k := by
  induction d generalizing d' with
  | nil =>
    have : d' = [] := by
      simpa [rowKeys] using h
    simp [this]
  | cons x xs ih =>
    cases d' with
    | nil => simp [rowKeys] at h
    | cons y ys =>
      simp only [rowKeys, List.map_cons, List.cons.injEq] at h
      simp only [findRowIdx, h.1, ih ys h.2]

theorem findRowIdx_get (d : List Row) (k : Nat) (i : Nat) (h : findRowIdx d k = some i) :
    ∃ r, d.get? i = some r ∧ r.rowKey = k := by
  induction d generalizing i with
  | nil => simp [findRowIdx] at h
  | cons x xs ih =>
    by_cases hx : x.rowKey = k
    · simp only [findRowIdx, if_pos hx] at h
      cases h
      exact ⟨x, rfl, hx⟩
    · simp only [findRowIdx, if_neg hx, Option.map_eq_some'] at h
      obtain ⟨j, hj, hji⟩ := h
      obtain ⟨r, hr, hrk⟩ := ih j hj
      exact ⟨r, by simpa [← hji] using hr, hrk⟩

/-! ### Frame machinery for the per-column folds -/

theorem colFrame_refl (c : String) (d : List Row) : ColFrame c d d :=
  ⟨Eq.refl _, Eq.refl _, fun _ => Eq.refl _, fun _ => Eq.refl _, id⟩

theorem ColFrame.trans {c : String} {d₁ d₂ d₃ : List Row}
    (h₁ : ColFrame c d₁ d₂) (h₂ : ColFrame c d₂ d₃) : ColFrame c d₁ d₃ :=
  ⟨h₂.len.trans h₁.len, h₂.keys.trans h₁.keys,
    fun i => (h₂.span i).trans (h₁.span i),
    fun i => (h₂.value i).trans (h₁.value i),
    fun h => h₂.nodup (h₁.nodup h)⟩

theorem colFrame_set (c : String) (d : List Row) (i : Nat) (r r' : Row)
    (hget : d.get? i = some r) (hkey : r'.rowKey = r.rowKey)
    (hspan : alistFind r'.rowSpanMap c = alistFind r.rowSpanMap c)
    (hval : rowValue r' c = rowValue r c)
    (hnd : (alistKeys r.rowSpanMap).Nodup → (alistKeys r'.rowSpanMap).Nodup) :
    ColFrame c d (d.set i r') := by
  have hlen : i < d.length := lt_of_get?_some d i r hget
  refine ⟨by simp, rowKeys_set d i r r' hget hkey, ?_, ?_, ?_⟩
  · intro j
    by_cases hij : i = j
    · subst hij
      simp only [spanAt]
      rw [get?_set_self d i r' hlen, hget]
      exact hspan
    · simp only [spanAt]
      rw [get?_set_other d i j r' hij]
  · intro j
    by_cases hij : i = j
    · subst hij
      simp only [valueAt]
      rw [get?_set_self d i r' hlen, hget]
      simp [hval]
    · simp only [valueAt]
      rw [get?_set_other d i j r' hij]
  · intro h rr hrr
    rcases List.mem_or_eq_of_mem_set hrr with hmem | hEq
    · exact h rr hmem
    · subst hEq
      exact hnd (h r (by exact List.get?_mem hget))

theorem get?_none_of_ge {α : Type} (l : List α) (i : Nat) (h : l.length ≤ i) :
    l.get? i = none := by
  induction l generalizing i with
  | nil => simp [List.get?]
  | cons x xs ih =>
    cases i with
    | zero => simp at h
    | succ n =>
      simp only [List.get?]
      exact ih n (by simpa using h)

/-- Full effect of the `updateSubRowSpan` loop: rows in the written
window `[mIdx+o, mIdx+o+f)` get the fresh sub entry for `c`, everything
else (other rows, other columns, all values, lengths, keys) is kept, and
success forces every written index into range. -/
theorem updateSubRowSpanGo_char (key : Nat) (c : String) (s : Int) (mIdx : Int) :
    ∀ (f : Nat) (o : Int) (d d' : List Row),
    updateSubRowSpanGo key c s mIdx f o d = some d' →
    d'.length = d.length ∧
    rowKeys d' = rowKeys d ∧
    (∀ c', c' ≠ c → ∀ i, spanAt d' i c' = spanAt d i c') ∧
    (∀ i c', valueAt d' i c' = valueAt d i c') ∧
    (MapsNodup d → MapsNodup d') ∧
    (∀ i : Nat, (mIdx + o ≤ (i : Int) ∧ (i : Int) < mIdx + o + f) → i < d.length) ∧
    (∀ i : Nat, spanAt d' i c =
      if mIdx + o ≤ (i : Int) ∧ (i : Int) < mIdx + o + f then
        some (createRowSpan false key (-((i : Int) - mIdx)) s)
      else spanAt d i c) := by
  intro f
  induction f with
  | zero =>
    intro o d d' h
    simp only [updateSubRowSpanGo] at h
    cases h
    refine ⟨rfl, rfl, fun _ _ _ => rfl, fun _ _ => rfl, id, ?_, ?_⟩
    · intro i hi
      omega
    · intro i
      rw [if_neg (by omega)]
  | succ f ih =>
    intro o d d' h
    simp only [updateSubRowSpanGo] at h
    by_cases h0 : (0 : Int) ≤ mIdx + o
    · rw [if_pos h0] at h
      cases hget : d.get? (mIdx + o).toNat with
      | none => rw [hget] at h; exact absurd h (by simp)
      | some row =>
        rw [hget] at h
        set row' : Row :=
          { row with rowSpanMap := alistSet row.rowSpanMap c (createRowSpan false key (-o) s) }
          with hrow'
        set d1 := d.set (mIdx + o).toNat row' with hd1
        obtain ⟨hlen, hkeys, hother, hvals, hnd, hwin, hspan⟩ := ih (o + 1) d1 d' h
        have hi0lt : (mIdx + o).toNat < d.length := lt_of_get?_some _ _ _ hget
        have hd1len : d1.length = d.length := by simp [hd1]
        have hd1keys : rowKeys d1 = rowKeys d :=
          rowKeys_set d _ row row' hget (by rw [hrow'])
        have hd1other : ∀ c', c' ≠ c → ∀ i, spanAt d1 i c' = spanAt d i c' := by
          intro c' hc' i
          by_cases hij : (mIdx + o).toNat = i
          · subst hij
            simp only [spanAt, hd1]
            rw [get?_set_self d _ row' hi0lt, hget]
            simp only [hrow']
            exact alistFind_set_ne _ _ _ _ hc'
          · simp only [spanAt, hd1]
            rw [get?_set_other d _ i row' hij]
        have hd1vals : ∀ i c', valueAt d1 i c' = valueAt d i c' := by
          intro i c'
          by_cases hij : (mIdx + o).toNat = i
          · subst hij
            simp only [valueAt, hd1]
            rw [get?_set_self d _ row' hi0lt, hget]
            simp [rowValue, hrow']
          · simp only [valueAt, hd1]
            rw [get?_set_other d _ i row' hij]
        have hd1nd : MapsNodup d → MapsNodup d1 := by
          intro hmd r hr
          rcases List.mem_or_eq_of_mem_set hr with hmem | hEq
          · exact hmd r hmem
          · subst hEq
            simp only [hrow']
            exact alistKeys_set_nodup _ _ _ (hmd row (List.get?_mem hget))
        have hd1at : spanAt d1 (mIdx + o).toNat c = some (createRowSpan false key (-o) s) := by
          simp only [spanAt, hd1]
          rw [get?_set_self d _ row' hi0lt]
          simp only [hrow']
          exact alistFind_set_self _ _ _
        have hd1off : ∀ i : Nat, i ≠ (mIdx + o).toNat → spanAt d1 i c = spanAt d i c := by
          intro i hi
          simp only [spanAt, hd1]
          rw [get?_set_other d _ i row' (fun hh => hi hh.symm)]
        refine ⟨hlen.trans hd1len, hkeys.trans hd1keys, ?_, ?_, ?_, ?_, ?_⟩
        · intro c' hc' i
          rw [hother c' hc' i, hd1other c' hc' i]
        · intro i c'
          rw [hvals i c', hd1vals i c']
        · intro hmd
          exact hnd (hd1nd hmd)
        · intro i hi
          by_cases hii : (i : Int) = mIdx + o
          · have : i = (mIdx + o).toNat := by omega
            omega
          · have : (mIdx + (o + 1) ≤ (i : Int) ∧ (i : Int) < mIdx + (o + 1) + f) := by
              push_cast at hi ⊢
              omega
            have := hwin i this
            omega
        · intro i
          by_cases hii : (i : Int) = mIdx + o
          · have hieq : i = (mIdx + o).toNat := by omega
            have hnotrec : ¬(mIdx + (o + 1) ≤ (i : Int) ∧ (i : Int) < mIdx + (o + 1) + f) := by
              omega
            rw [hspan i, if_neg hnotrec, hieq, hd1at]
            rw [if_pos (by push_cast; omega)]
            have : -((i : Int) - mIdx) = -o := by omega
            rw [hieq] at this
            rw [this]
          · by_cases hrec : mIdx + (o + 1) ≤ (i : Int) ∧ (i : Int) < mIdx + (o + 1) + f
            · rw [hspan i, if_pos hrec, if_pos (by push_cast at hrec ⊢; omega)]
            · have hne : i ≠ (mIdx + o).toNat := by omega
              rw [hspan i, if_neg hrec, hd1off i hne,
                if_neg (by push_cast at hrec ⊢; omega)]
    · rw [if_neg h0] at h
      exact absurd h (by simp)

/-- `updateSubRowSpan` with `startOffset = 1` (the only call mode in the
source) when the main row's first position is known: rewrites exactly the
rows at offsets `1 .. spanCount-1` below `mIdx`. -/
theorem updateSubRowSpan_char1 (d d' : List Row) (key : Nat) (c : String) (s : Int)
    (mIdx : Nat) (hidx : findRowIdx d key = some mIdx)
    (h : updateSubRowSpan d key c 1 s = some d') :
    d'.length = d.length ∧
    rowKeys d' = rowKeys d ∧
    (∀ c', c' ≠ c → ∀ i, spanAt d' i c' = spanAt d i c') ∧
    (∀ i c', valueAt d' i c' = valueAt d i c') ∧
    (MapsNodup d → MapsNodup d') ∧
    (∀ i : Nat, (mIdx + 1 ≤ i ∧ (i : Int) < mIdx + s) → i < d.length) ∧
    (∀ i : Nat, spanAt d' i c =
      if mIdx + 1 ≤ i ∧ (i : Int) < mIdx + s then
        some (createRowSpan false key (-(((i : Int)) - mIdx)) s)
      else spanAt d i c) := by
  simp only [updateSubRowSpan, findPropIndexKey, hidx] at h
  obtain ⟨hlen, hkeys, hother, hvals, hnd, hwin, hspan⟩ :=
    updateSubRowSpanGo_char key c s mIdx ((s - 1).toNat) 1 d d' h
  have hcond : ∀ i : Nat,
      ((mIdx : Int) + 1 ≤ (i : Int) ∧ (i : Int) < mIdx + 1 + ((s - 1).toNat : Int)) ↔
      (mIdx + 1 ≤ i ∧ (i : Int) < mIdx + s) := by
    intro i
    by_cases hs : 1 ≤ s
    · have : ((s - 1).toNat : Int) = s - 1 := Int.toNat_of_nonneg (by omega)
      rw [this]
      constructor
      · intro hh
        exact ⟨by exact_mod_cast (by omega : (mIdx : Int) + 1 ≤ (i : Int)), by omega⟩
      · intro hh
        refine ⟨by exact_mod_cast hh.1, by omega⟩
    · have : ((s - 1).toNat : Int) = 0 := by omega
      rw [this]
      constructor
      · intro hh
        omega
      · intro hh
        omega
  refine ⟨hlen, hkeys, hother, hvals, hnd, ?_, ?_⟩
  · intro i hi
    exact hwin i ((hcond i).mpr hi)
  · intro i
    rcases Classical.em (mIdx + 1 ≤ i ∧ (i : Int) < mIdx + s) with hc | hc
    · rw [hspan i, if_pos ((hcond i).mpr hc), if_pos hc]
    · rw [hspan i, if_neg (fun hh => hc ((hcond i).mp hh)), if_neg hc]

/-! ### Fold lemmas for the per-column maintainers -/

theorem stepFold_append (step : List Row → String → Option (List Row))
    (l1 l2 : List String) (d : List Row) :
    stepFold step (l1 ++ l2) d =
      match stepFold step l1 d with
      | some d1 => stepFold step l2 d1
      | none => none := by
  induction l1 generalizing d with
  | nil => simp [stepFold]
  | cons x xs ih =>
    simp only [List.cons_append, stepFold]
    cases step d x with
    | some d1 => exact ih d1
    | none => rfl

theorem stepFold_frame (c : String) (step : List Row → String → Option (List Row))
    (cs : List String)
    (hstep : ∀ d₁ d₂ x, x ∈ cs → step d₁ x = some d₂ → ColFrame c d₁ d₂) :
    ∀ d d', stepFold step cs d = some d' → ColFrame c d d' := by
  induction cs with
  | nil =>
    intro d d' h
    simp only [stepFold] at h
    cases h
    exact colFrame_refl c d
  | cons x xs ih =>
    intro d d' h
    simp only [stepFold] at h
    cases hx : step d x with
    | none => rw [hx] at h; exact absurd h (by simp)
    | some d1 =>
      rw [hx] at h
      have h1 : ColFrame c d d1 := hstep d d1 x (by simp) hx
      have h2 : ColFrame c d1 d' :=
        ih (fun a b y hy hh => hstep a b y (by simp [hy]) hh) d1 d' h
      exact h1.trans h2

/-- Splitting a duplicate-free key list at a chosen key. -/
theorem keys_split {l : List String} {c : String} (hmem : c ∈ l) (hnd : l.Nodup) :
    ∃ l1 l2, l = l1 ++ c :: l2 ∧ c ∉ l1 ∧ c ∉ l2 := by
  obtain ⟨l1, l2, rfl⟩ := List.append_of_mem hmem
  rw [List.nodup_append] at hnd
  refine ⟨l1, l2, rfl, ?_, ?_⟩
  · intro hc
    exact hnd.2.2 hc (by simp)
  · have := hnd.2.1
    rw [List.nodup_cons] at this
    exact this.1

theorem rowKeys_get? (d d' : List Row) (h : rowKeys d' = rowKeys d) (i : Nat) :
    (d'.get? i).map (fun r => r.rowKey) = (d.get? i).map (fun r => r.rowKey) := by
  induction d generalizing d' i with
  | nil =>
    have : d' = [] := by simpa [rowKeys] using h
    subst this
    rfl
  | cons x xs ih =>
    cases d' with
    | nil => simp [rowKeys] at h
    | cons y ys =>
      simp only [rowKeys, List.map_cons, List.cons.injEq] at h
      cases i with
      | zero => simp [h.1]
      | succ n => exact ih ys h.2 n

/-- `updateSubRowSpan` at one column is a frame for every other column. -/
theorem updateSubRowSpan_frame (d d' : List Row) (key : Nat) (c₀ c : String)
    (so s : Int) (hc : c ≠ c₀) (h : updateSubRowSpan d key c₀ so s = some d') :
    ColFrame c d d' := by
  simp only [updateSubRowSpan] at h
  obtain ⟨hlen, hkeys, hother, hvals, hnd, _, _⟩ :=
    updateSubRowSpanGo_char key c₀ s (findPropIndexKey key d) ((s - so).toNat) so d d' h
  exact ⟨hlen, hkeys, hother c hc, fun i => hvals i c, hnd⟩

/-- `appendStep` at one column is a frame for every other column. -/
theorem appendStep_frame (pIdx : Nat) (ext : Bool) (d d' : List Row) (c₀ c : String)
    (hc : c ≠ c₀) (h : appendStep pIdx ext d c₀ = some d') : ColFrame c d d' := by
  unfold appendStep at h
  cases hp : d.get? pIdx with
  | none => rw [hp] at h; exact absurd h (by simp)
  | some prevRow =>
    rw [hp] at h
    dsimp only at h
    cases hsp : alistFind prevRow.rowSpanMap c₀ with
    | none =>
      rw [hsp] at h
      cases h
      exact colFrame_refl c d
    | some sp =>
      rw [hsp] at h
      dsimp only at h
      cases hm : (if sp.mainRow then some pIdx else findRowIdx d sp.mainRowKey) with
      | none => rw [hm] at h; exact absurd h (by simp)
      | some mIdx =>
        rw [hm] at h
        dsimp only at h
        cases hmr : d.get? mIdx with
        | none => rw [hmr] at h; exact absurd h (by simp)
        | some mrow =>
          rw [hmr] at h
          dsimp only at h
          cases hmsp : alistFind mrow.rowSpanMap c₀ with
          | none => rw [hmsp] at h; exact absurd h (by simp)
          | some msp =>
            rw [hmsp] at h
            dsimp only at h
            by_cases hso : (if sp.mainRow || ext then (1 : Int) else -sp.count + 1) < msp.spanCount
            · rw [if_pos hso] at h
              refine ColFrame.trans ?_ (updateSubRowSpan_frame _ _ _ _ _ _ _ hc h)
              exact colFrame_set c d mIdx mrow _ hmr rfl (alistFind_set_ne _ _ _ _ hc) rfl
                (alistKeys_set_nodup _ _ _)
            · rw [if_neg hso] at h
              cases h
              exact colFrame_refl c d

/-- Effect of `appendStep` on the column it processes, given the span
resolution facts at the data it runs on. -/
theorem appendStep_at (pIdx : Nat) (ext : Bool) (d d' : List Row) (c : String)
    (prevRow : Row) (sp : RowSpan) (mIdx : Nat) (mrow : Row) (msp : RowSpan)
    (hp : d.get? pIdx = some prevRow)
    (hsp : alistFind prevRow.rowSpanMap c = some sp)
    (hm : (if sp.mainRow then some pIdx else findRowIdx d sp.mainRowKey) = some mIdx)
    (hmr : d.get? mIdx = some mrow)
    (hmsp : alistFind mrow.rowSpanMap c = some msp)
    (hkey : findRowIdx d mrow.rowKey = some mIdx)
    (h : appendStep pIdx ext d c = some d') :
    d'.length = d.length ∧
    rowKeys d' = rowKeys d ∧
    (MapsNodup d → MapsNodup d') ∧
    (∀ i c', valueAt d' i c' = valueAt d i c') ∧
    (((if sp.mainRow || ext then (1 : Int) else -sp.count + 1) < msp.spanCount →
      ∀ i : Nat, spanAt d' i c =
        if i = mIdx then some { msp with count := msp.count + 1, spanCount := msp.spanCount + 1 }
        else if mIdx + 1 ≤ i ∧ (i : Int) < mIdx + msp.spanCount + 1 then
          some (createRowSpan false mrow.rowKey (-(((i : Int)) - mIdx)) (msp.spanCount + 1))
        else spanAt d i c) ∧
     (¬ (if sp.mainRow || ext then (1 : Int) else -sp.count + 1) < msp.spanCount → d' = d)) := by
  unfold appendStep at h
  rw [hp] at h
  dsimp only at h
  rw [hsp] at h
  dsimp only at h
  rw [hm] at h
  dsimp only at h
  rw [hmr] at h
  dsimp only at h
  rw [hmsp] at h
  dsimp only at h
  by_cases hso : (if sp.mainRow || ext then (1 : Int) else -sp.count + 1) < msp.spanCount
  · rw [if_pos hso] at h
    set msp2 : RowSpan :=
      ({ msp with count := msp.count + 1, spanCount := msp.spanCount + 1 } : RowSpan) with hmsp2
    set mrow' : Row :=
      ({ mrow with rowSpanMap := alistSet mrow.rowSpanMap c msp2 } : Row) with hmrow'
    set d1 := d.set mIdx mrow' with hd1
    have hmlt : mIdx < d.length := lt_of_get?_some _ _ _ hmr
    have hd1len : d1.length = d.length := by simp [hd1]
    have hd1keys : rowKeys d1 = rowKeys d := rowKeys_set d mIdx mrow mrow' hmr (by rw [hmrow'])
    have hkey1 : findRowIdx d1 mrow.rowKey = some mIdx := by
      rw [findRowIdx_congr d d1 hd1keys]
      exact hkey
    obtain ⟨hlen, hkeys, hother, hvals, hnd, hwin, hspan⟩ :=
      updateSubRowSpan_char1 d1 d' mrow.rowKey c (msp.spanCount + 1) mIdx hkey1 h
    have hd1at : spanAt d1 mIdx c = some msp2 := by
      simp only [spanAt, hd1]
      rw [get?_set_self d mIdx mrow' hmlt]
      simp only [hmrow']
      exact alistFind_set_self _ _ _
    have hd1off : ∀ i : Nat, i ≠ mIdx → spanAt d1 i c = spanAt d i c := by
      intro i hi
      simp only [spanAt, hd1]
      rw [get?_set_other d mIdx i mrow' (fun hh => hi hh.symm)]
    have hd1nd : MapsNodup d → MapsNodup d1 := by
      intro hmd r hr
      rcases List.mem_or_eq_of_mem_set hr with hmem | hEq
      · exact hmd r hmem
      · subst hEq
        simp only [hmrow']
        exact alistKeys_set_nodup _ _ _ (hmd mrow (List.get?_mem hmr))
    have hd1vals : ∀ i c', valueAt d1 i c' = valueAt d i c' := by
      intro i c'
      by_cases hij : mIdx = i
      · subst hij
        simp only [valueAt, hd1]
        rw [get?_set_self d mIdx mrow' hmlt, hmr]
        simp [rowValue, hmrow']
      · simp only [valueAt, hd1]
        rw [get?_set_other d mIdx i mrow' hij]
    refine ⟨hlen.trans hd1len, hkeys.trans hd1keys, fun hmd => hnd (hd1nd hmd),
      fun i c' => (hvals i c').trans (hd1vals i c'), fun _ i => ?_, fun hcon => absurd hso hcon⟩
    by_cases hieq : i = mIdx
    · subst hieq
      rw [hspan i, if_neg (by omega), hd1at, if_pos rfl]
    · rw [if_neg hieq]
      by_cases hwini : mIdx + 1 ≤ i ∧ (i : Int) < mIdx + msp.spanCount + 1
      · rw [hspan i, if_pos (by constructor <;> omega), if_pos hwini]
      · rw [hspan i, if_neg (by omega), hd1off i hieq, if_neg hwini]
  · rw [if_neg hso] at h
    cases h
    exact ⟨rfl, rfl, id, fun _ _ => rfl, fun hcon => absurd hcon hso, fun _ => rfl⟩

theorem spanAt_inv (d : List Row) (i : Nat) (c : String) (rs : RowSpan)
    (h : spanAt d i c = some rs) :
    ∃ r, d.get? i = some r ∧ alistFind r.rowSpanMap c = some rs := by
  unfold spanAt at h
  cases hg : d.get? i with
  | none => rw [hg] at h; exact absurd h (by simp)
  | some r =>
    rw [hg] at h
    exact ⟨r, rfl, h⟩

theorem isEmpty_false_of_find {α : Type} (m : List (String × α)) (c : String) (v : α)
    (h : alistFind m c = some v) : m.isEmpty = false := by
  cases m with
  | nil => simp [alistFind] at h
  | cons e es => rfl

/-- C2.  `updateRowSpanWhenAppend` grows the span that `prevRow = data[pIdx]`
participates in on column `c` by exactly one — the main entry's `count`
and `spanCount` are incremented and every sub entry at offsets
`1 .. newSpanCount-1` is rewritten to
`(mainRow := false, mainRowKey := main row's key, count := -offset,
spanCount := newSpanCount)` — precisely when the span's live range covers
the insertion point (`spanCount > startOffset`, `startOffset = 1` when
`prevRow` is the main row or `extendPrevRowSpan` is set, else
`-count + 1`); otherwise all of column `c`'s entries are unchanged.  And
when `prevRow`'s `rowSpanMap` is empty the call changes nothing at all. -/
theorem C2_append_grows_span_iff_live
    (data data' : List Row) (pIdx : Nat) (ext : Bool) (c : String)
    (prevRow : Row) (sp : RowSpan) (mIdx : Nat) (mrow : Row) (msp : RowSpan)
    (hp : data.get? pIdx = some prevRow)
    (hnd : (alistKeys prevRow.rowSpanMap).Nodup)
    (hsp : alistFind prevRow.rowSpanMap c = some sp)
    (hm : (if sp.mainRow then some pIdx else findRowIdx data sp.mainRowKey) = some mIdx)
    (hmr : data.get? mIdx = some mrow)
    (hmsp : alistFind mrow.rowSpanMap c = some msp)
    (hkey : findRowIdx data mrow.rowKey = some mIdx)
    (hrun : updateRowSpanWhenAppend data pIdx ext = some data') :
    (((if sp.mainRow || ext then (1 : Int) else -sp.count + 1) < msp.spanCount →
       ∀ i : Nat, spanAt data' i c =
         if i = mIdx then some { msp with count := msp.count + 1, spanCount := msp.spanCount + 1 }
         else if mIdx + 1 ≤ i ∧ (i : Int) < mIdx + msp.spanCount + 1 then
           some (createRowSpan false mrow.rowKey (-(((i : Int)) - mIdx)) (msp.spanCount + 1))
         else spanAt data i c) ∧
     (¬ (if sp.mainRow || ext then (1 : Int) else -sp.count + 1) < msp.spanCount →
       ∀ i : Nat, spanAt data' i c = spanAt data i c)) ∧
    (∀ (d0 : List Row) (p0 : Nat) (r0 : Row) (e0 : Bool), d0.get? p0 = some r0 →
       r0.rowSpanMap.isEmpty = true → updateRowSpanWhenAppend d0 p0 e0 = some d0) := by
  constructor
  · -- locate the step for column c inside the fold
    unfold updateRowSpanWhenAppend at hrun
    rw [hp] at hrun
    dsimp only at hrun
    rw [if_neg (by simp [isEmpty_false_of_find prevRow.rowSpanMap c sp hsp])] at hrun
    have hmem : c ∈ alistKeys prevRow.rowSpanMap :=
      mem_keys_of_alistFind_isSome _ _ (by simp [hsp])
    obtain ⟨l1, l2, hsplit, hcl1, hcl2⟩ := keys_split hmem hnd
    rw [hsplit, stepFold_append] at hrun
    cases h1 : stepFold (appendStep pIdx ext) l1 data with
    | none => rw [h1] at hrun; exact absurd hrun (by simp)
    | some d1 =>
      rw [h1] at hrun
      dsimp only at hrun
      simp only [stepFold] at hrun
      cases h2 : appendStep pIdx ext d1 c with
      | none => rw [h2] at hrun; exact absurd hrun (by simp)
      | some d2 =>
        rw [h2] at hrun
        dsimp only at hrun
        have F : ColFrame c data d1 :=
          stepFold_frame c _ l1
            (fun a b x hx hh => appendStep_frame pIdx ext a b x c
              (fun heq => hcl1 (heq ▸ hx)) hh) data d1 h1
        have G : ColFrame c d2 data' :=
          stepFold_frame c _ l2
            (fun a b x hx hh => appendStep_frame pIdx ext a b x c
              (fun heq => hcl2 (heq ▸ hx)) hh) d2 data' hrun
        -- transport the resolution hypotheses to d1
        obtain ⟨prevRow1, hp1, hsp1⟩ := spanAt_inv d1 pIdx c sp
          (by rw [F.span pIdx]; unfold spanAt; rw [hp]; exact hsp)
        obtain ⟨mrow1, hmr1, hmsp1⟩ := spanAt_inv d1 mIdx c msp
          (by rw [F.span mIdx]; unfold spanAt; rw [hmr]; exact hmsp)
        have hmk1 : mrow1.rowKey = mrow.rowKey := by
          have := rowKeys_get? data d1 F.keys mIdx
          rw [hmr1, hmr] at this
          simpa using this
        have hm1 : (if sp.mainRow then some pIdx else findRowIdx d1 sp.mainRowKey) = some mIdx := by
          cases hb : sp.mainRow with
          | true => rw [hb] at hm; simpa using hm
          | false =>
            rw [hb] at hm
            simp only [Bool.false_eq_true, if_false] at hm ⊢
            rw [findRowIdx_congr data d1 F.keys]
            exact hm
        have hkey1 : findRowIdx d1 mrow1.rowKey = some mIdx := by
          rw [hmk1, findRowIdx_congr data d1 F.keys]
          exact hkey
        obtain ⟨_, _, _, _, hpos, hneg⟩ :=
          appendStep_at pIdx ext d1 d2 c prevRow1 sp mIdx mrow1 msp
            hp1 hsp1 hm1 hmr1 hmsp1 hkey1 h2
        constructor
        · intro hso i
          rw [G.span i, hpos hso i, hmk1]
          by_cases h0 : i = mIdx
          · rw [if_pos h0, if_pos h0]
          · rw [if_neg h0, if_neg h0]
            by_cases hw : mIdx + 1 ≤ i ∧ (i : Int) < mIdx + msp.spanCount + 1
            · rw [if_pos hw, if_pos hw]
            · rw [if_neg hw, if_neg hw, F.span i]
        · intro hso i
          rw [G.span i, hneg hso, F.span i]
  · intro d0 p0 r0 e0 hget0 hemp0
    unfold updateRowSpanWhenAppend
    rw [hget0]
    dsimp only
    rw [if_pos (by simp [hemp0])]

theorem setValueAt_frame (d : List Row) (i : Nat) (c₀ c : String) (v : CellValue)
    (hc : c ≠ c₀) : ColFrame c d (setValueAt d i c₀ v) := by
  unfold setValueAt
  cases hg : d.get? i with
  | none => exact colFrame_refl c d
  | some r =>
    refine colFrame_set c d i r _ hg rfl rfl ?_ id
    simp only [rowValue]
    rw [alistFind_set_ne _ _ _ _ hc]

theorem removePhase2_frame (d d' : List Row) (mIdx : Nat) (s : Int) (c₀ c : String)
    (hc : c ≠ c₀) (h : removePhase2 d mIdx s c₀ = some d') : ColFrame c d d' := by
  unfold removePhase2 at h
  cases hg : d.get? mIdx with
  | none => rw [hg] at h; exact absurd h (by simp)
  | some mrow =>
    rw [hg] at h
    dsimp only at h
    by_cases hs : 1 < s
    · rw [if_pos hs] at h
      cases hf : alistFind mrow.rowSpanMap c₀ with
      | none => rw [hf] at h; exact absurd h (by simp)
      | some ms =>
        rw [hf] at h
        dsimp only at h
        refine ColFrame.trans ?_ (updateSubRowSpan_frame _ _ _ _ _ _ _ hc h)
        exact colFrame_set c d mIdx mrow _ hg rfl (alistFind_set_ne _ _ _ _ hc) rfl
          (alistKeys_set_nodup _ _ _)
    · rw [if_neg hs] at h
      cases h
      exact colFrame_set c d mIdx mrow _ hg rfl (alistFind_erase_ne _ _ _ hc) rfl
        (alistKeys_erase_nodup _ _)

theorem removeStep_frame (removedRow : Row) (nIdx : Nat) (keep : Bool)
    (d d' : List Row) (c₀ c : String) (hc : c ≠ c₀)
    (h : removeStep removedRow nIdx keep d c₀ = some d') : ColFrame c d d' := by
  unfold removeStep at h
  cases hf : alistFind removedRow.rowSpanMap c₀ with
  | none => rw [hf] at h; exact absurd h (by simp)
  | some rsp =>
    rw [hf] at h
    dsimp only at h
    by_cases hb : rsp.mainRow
    · rw [if_pos hb] at h
      cases hg : d.get? nIdx with
      | none => rw [hg] at h; exact absurd h (by simp)
      | some nextRow =>
        rw [hg] at h
        dsimp only at h
        by_cases h1 : 1 < rsp.count - 1
        · rw [if_pos h1] at h
          cases hnf : alistFind nextRow.rowSpanMap c₀ with
          | none => rw [hnf] at h; exact absurd h (by simp)
          | some ns =>
            rw [hnf] at h
            dsimp only at h
            have F1 : ColFrame c d
                (d.set nIdx
                  (Row.mk nextRow.rowKey nextRow.values
                    (alistSet nextRow.rowSpanMap c₀
                      (RowSpan.mk true nextRow.rowKey ns.count ns.spanCount)))) :=
              colFrame_set c d nIdx nextRow _ hg rfl (alistFind_set_ne _ _ _ _ hc) rfl
                (alistKeys_set_nodup _ _ _)
            by_cases hkp : keep = true
            · rw [if_pos hkp] at h
              exact F1.trans (ColFrame.trans (setValueAt_frame _ _ _ _ _ hc)
                (removePhase2_frame _ _ _ _ _ _ hc h))
            · rw [if_neg hkp] at h
              exact F1.trans (removePhase2_frame _ _ _ _ _ _ hc h)
        · rw [if_neg h1] at h
          dsimp only at h
          by_cases hkp : keep = true
          · rw [if_pos hkp] at h
            exact ColFrame.trans (setValueAt_frame _ _ _ _ _ hc)
              (removePhase2_frame _ _ _ _ _ _ hc h)
          · rw [if_neg hkp] at h
            exact removePhase2_frame _ _ _ _ _ _ hc h
    · rw [if_neg hb] at h
      cases hfi : findRowIdx d rsp.mainRowKey with
      | none => rw [hfi] at h; exact absurd h (by simp)
      | some mIdx =>
        rw [hfi] at h
        dsimp only at h
        cases hg : d.get? mIdx with
        | none => rw [hg] at h; exact absurd h (by simp)
        | some mrow =>
          rw [hg] at h
          dsimp only at h
          cases hmf : alistFind mrow.rowSpanMap c₀ with
          | none => rw [hmf] at h; exact absurd h (by simp)
          | some ms =>
            rw [hmf] at h
            dsimp only at h
            exact removePhase2_frame _ _ _ _ _ _ hc h

theorem setValueAt_get_self (d : List Row) (i : Nat) (c : String) (v : CellValue) (r : Row)
    (hg : d.get? i = some r) :
    (setValueAt d i c v).get? i = some (Row.mk r.rowKey (alistSet r.values c v) r.rowSpanMap) := by
  unfold setValueAt
  rw [hg]
  exact get?_set_self d i _ (lt_of_get?_some d i r hg)

theorem setValueAt_get_other (d : List Row) (i j : Nat) (c : String) (v : CellValue)
    (hij : j ≠ i) : (setValueAt d i c v).get? j = d.get? j := by
  unfold setValueAt
  cases hg : d.get? i with
  | none => rfl
  | some r => exact get?_set_other d i j _ (fun hh => hij hh.symm)

theorem setValueAt_span (d : List Row) (i : Nat) (c₀ : String) (v : CellValue) :
    ∀ (j : Nat) (c : String), spanAt (setValueAt d i c₀ v) j c = spanAt d j c := by
  intro j c
  unfold setValueAt
  cases hg : d.get? i with
  | none => rfl
  | some r =>
    by_cases hij : i = j
    · subst hij
      simp only [spanAt]
      rw [get?_set_self d i _ (lt_of_get?_some d i r hg), hg]
    · simp only [spanAt]
      rw [get?_set_other d i j _ hij]

theorem setValueAt_len (d : List Row) (i : Nat) (c₀ : String) (v : CellValue) :
    (setValueAt d i c₀ v).length = d.length := by
  unfold setValueAt
  cases d.get? i <;> simp

theorem setValueAt_keys (d : List Row) (i : Nat) (c₀ : String) (v : CellValue) :
    rowKeys (setValueAt d i c₀ v) = rowKeys d := by
  unfold setValueAt
  cases hg : d.get? i with
  | none => rfl
  | some r => exact rowKeys_set d i r _ hg rfl

theorem setValueAt_nodup (d : List Row) (i : Nat) (c₀ : String) (v : CellValue)
    (h : MapsNodup d) : MapsNodup (setValueAt d i c₀ v) := by
  unfold setValueAt
  cases hg : d.get? i with
  | none => exact h
  | some r =>
    intro rr hrr
    rcases List.mem_or_eq_of_mem_set hrr with hmem | hEq
    · exact h rr hmem
    · subst hEq
      exact h r (List.get?_mem hg)

/-- Effect of `removePhase2` on the column it processes. -/
theorem removePhase2_at (d d' : List Row) (mIdx : Nat) (s : Int) (c : String) (mrow : Row)
    (hg : d.get? mIdx = some mrow)
    (hkey : findRowIdx d mrow.rowKey = some mIdx)
    (hnd : (alistKeys mrow.rowSpanMap).Nodup)
    (h : removePhase2 d mIdx s c = some d') :
    d'.length = d.length ∧
    rowKeys d' = rowKeys d ∧
    (∀ i c', valueAt d' i c' = valueAt d i c') ∧
    (1 < s → ∃ ms, alistFind mrow.rowSpanMap c = some ms ∧
      ∀ i : Nat, spanAt d' i c =
        if i = mIdx then some (RowSpan.mk ms.mainRow ms.mainRowKey s s)
        else if mIdx + 1 ≤ i ∧ (i : Int) < mIdx + s then
          some (createRowSpan false mrow.rowKey (-(((i : Int)) - mIdx)) s)
        else spanAt d i c) ∧
    (¬ 1 < s → ∀ i : Nat, spanAt d' i c = if i = mIdx then none else spanAt d i c) := by
  have hmlt : mIdx < d.length := lt_of_get?_some d mIdx mrow hg
  unfold removePhase2 at h
  rw [hg] at h
  dsimp only at h
  by_cases hs : 1 < s
  · rw [if_pos hs] at h
    cases hf : alistFind mrow.rowSpanMap c with
    | none => rw [hf] at h; exact absurd h (by simp)
    | some ms =>
      rw [hf] at h
      dsimp only at h
      set mrow' : Row :=
        Row.mk mrow.rowKey mrow.values
          (alistSet mrow.rowSpanMap c (RowSpan.mk ms.mainRow ms.mainRowKey s s)) with hmrow'
      set d3 := d.set mIdx mrow' with hd3
      have hd3len : d3.length = d.length := by simp [hd3]
      have hd3keys : rowKeys d3 = rowKeys d := rowKeys_set d mIdx mrow mrow' hg rfl
      have hkey3 : findRowIdx d3 mrow.rowKey = some mIdx := by
        rw [findRowIdx_congr d d3 hd3keys]
        exact hkey
      obtain ⟨hlen, hkeys, hother, hvals, hndp, hwin, hspan⟩ :=
        updateSubRowSpan_char1 d3 d' mrow.rowKey c s mIdx hkey3 h
      have hd3at : spanAt d3 mIdx c = some (RowSpan.mk ms.mainRow ms.mainRowKey s s) := by
        simp only [spanAt, hd3]
        rw [get?_set_self d mIdx mrow' hmlt]
        simp only [hmrow']
        exact alistFind_set_self _ _ _
      have hd3off : ∀ i : Nat, i ≠ mIdx → spanAt d3 i c = spanAt d i c := by
        intro i hi
        simp only [spanAt, hd3]
        rw [get?_set_other d mIdx i mrow' (fun hh => hi hh.symm)]
      have hd3vals : ∀ i c', valueAt d3 i c' = valueAt d i c' := by
        intro i c'
        by_cases hij : mIdx = i
        · subst hij
          simp only [valueAt, hd3]
          rw [get?_set_self d mIdx mrow' hmlt, hg]
          simp [rowValue, hmrow']
        · simp only [valueAt, hd3]
          rw [get?_set_other d mIdx i mrow' hij]
      refine ⟨hlen.trans hd3len, hkeys.trans hd3keys,
        fun i c' => (hvals i c').trans (hd3vals i c'), ?_, fun hc => absurd hs hc⟩
      intro _
      refine ⟨ms, rfl, fun i => ?_⟩
      by_cases hieq : i = mIdx
      · subst hieq
        rw [hspan i, if_neg (by omega), hd3at, if_pos rfl]
      · rw [if_neg hieq]
        by_cases hw : mIdx + 1 ≤ i ∧ (i : Int) < mIdx + s
        · rw [hspan i, if_pos hw, if_pos hw]
        · rw [hspan i, if_neg hw, hd3off i hieq, if_neg hw]
  · rw [if_neg hs] at h
    cases h
    set mrow' : Row := Row.mk mrow.rowKey mrow.values (alistErase mrow.rowSpanMap c) with hmrow'
    refine ⟨by simp, rowKeys_set d mIdx mrow mrow' hg rfl, ?_, fun hc => absurd hc hs, ?_⟩
    · intro i c'
      by_cases hij : mIdx = i
      · subst hij
        simp only [valueAt]
        rw [get?_set_self d mIdx mrow' hmlt, hg]
        simp [rowValue, hmrow']
      · simp only [valueAt]
        rw [get?_set_other d mIdx i mrow' hij]
    · intro _ i
      by_cases hieq : i = mIdx
      · subst hieq
        rw [if_pos rfl]
        simp only [spanAt]
        rw [get?_set_self d i mrow' hmlt]
        simp only [hmrow']
        exact alistFind_erase_self _ _ hnd
      · rw [if_neg hieq]
        simp only [spanAt]
        rw [get?_set_other d mIdx i mrow' (fun hh => hieq hh.symm)]

theorem setValueAt_value_self (d : List Row) (i : Nat) (c : String) (v : CellValue) (r : Row)
    (hg : d.get? i = some r) : valueAt (setValueAt d i c v) i c = some v := by
  simp only [valueAt]
  rw [setValueAt_get_self d i c v r hg]
  simp [rowValue, alistFind_set_self]

/-- Effect of `removeStep` on the column it processes when the removed
row owned the span (`mainRow = true`): promote-or-collapse at `nextRow =
data[nIdx]`, plus the unconditional `keepRowSpanData` value copy. -/
theorem removeStep_at (removedRow : Row) (nIdx : Nat) (keep : Bool) (d d' : List Row)
    (c : String) (rsp : RowSpan) (nrow : Row)
    (hr : alistFind removedRow.rowSpanMap c = some rsp)
    (hb : rsp.mainRow = true)
    (hn : d.get? nIdx = some nrow)
    (hkeyn : findRowIdx d nrow.rowKey = some nIdx)
    (hndn : (alistKeys nrow.rowSpanMap).Nodup)
    (h : removeStep removedRow nIdx keep d c = some d') :
    d'.length = d.length ∧
    rowKeys d' = rowKeys d ∧
    (1 < rsp.count - 1 → ∀ i : Nat, spanAt d' i c =
      if i = nIdx then some (RowSpan.mk true nrow.rowKey (rsp.count - 1) (rsp.count - 1))
      else if nIdx + 1 ≤ i ∧ (i : Int) < nIdx + (rsp.count - 1) then
        some (createRowSpan false nrow.rowKey (-(((i : Int)) - nIdx)) (rsp.count - 1))
      else spanAt d i c) ∧
    (¬ 1 < rsp.count - 1 → ∀ i : Nat, spanAt d' i c = if i = nIdx then none else spanAt d i c) ∧
    (valueAt d' nIdx c = if keep then some (rowValue removedRow c) else valueAt d nIdx c) := by
  have hnlt : nIdx < d.length := lt_of_get?_some d nIdx nrow hn
  unfold removeStep at h
  rw [hr] at h
  dsimp only at h
  rw [if_pos hb] at h
  rw [hn] at h
  dsimp only at h
  by_cases h1 : 1 < rsp.count - 1
  · rw [if_pos h1] at h
    cases hnf : alistFind nrow.rowSpanMap c with
    | none =>
      rw [hnf] at h
      exact absurd h (by simp)
    | some ns =>
      rw [hnf] at h
      dsimp only at h
      set ns2 : RowSpan := RowSpan.mk true nrow.rowKey ns.count ns.spanCount with hns2
      set nrow1 : Row := Row.mk nrow.rowKey nrow.values (alistSet nrow.rowSpanMap c ns2) with hnrow1
      set d1 := d.set nIdx nrow1 with hd1
      have hg1 : d1.get? nIdx = some nrow1 := get?_set_self d nIdx nrow1 hnlt
      have hd1keys : rowKeys d1 = rowKeys d := rowKeys_set d nIdx nrow nrow1 hn rfl
      have hd1len : d1.length = d.length := by simp [hd1]
      have hd1span_off : ∀ i : Nat, i ≠ nIdx → spanAt d1 i c = spanAt d i c := by
        intro i hi
        simp only [spanAt, hd1]
        rw [get?_set_other d nIdx i nrow1 (fun hh => hi hh.symm)]
      have hnd1 : (alistKeys nrow1.rowSpanMap).Nodup := by
        simp only [hnrow1]
        exact alistKeys_set_nodup _ _ _ hndn
      have hfind1 : alistFind nrow1.rowSpanMap c = some ns2 := by
        simp only [hnrow1]
        exact alistFind_set_self _ _ _
      by_cases hkp : keep = true
      · rw [if_pos hkp] at h
        set v := rowValue removedRow c with hv
        set nrow2 : Row := Row.mk nrow1.rowKey (alistSet nrow1.values c v) nrow1.rowSpanMap
          with hnrow2
        set d2 := setValueAt d1 nIdx c v with hd2
        have hg2 : d2.get? nIdx = some nrow2 := setValueAt_get_self d1 nIdx c v nrow1 hg1
        have hd2keys : rowKeys d2 = rowKeys d1 := setValueAt_keys d1 nIdx c v
        have hkey2 : findRowIdx d2 nrow2.rowKey = some nIdx := by
          have : nrow2.rowKey = nrow.rowKey := by simp [hnrow2, hnrow1]
          rw [this, findRowIdx_congr d d2 (hd2keys.trans hd1keys)]
          exact hkeyn
        have hnd2 : (alistKeys nrow2.rowSpanMap).Nodup := by
          simpa [hnrow2] using hnd1
        obtain ⟨len2, keys2, vals2, pos2, _⟩ :=
          removePhase2_at d2 d' nIdx (rsp.count - 1) c nrow2 hg2 hkey2 hnd2 h
        obtain ⟨ms, hms, hform⟩ := pos2 h1
        have hms2 : ms = ns2 := by
          have : alistFind nrow2.rowSpanMap c = some ns2 := by
            simpa [hnrow2] using hfind1
          rw [hms] at this
          exact (Option.some.injEq _ _).mp this.symm |>.symm
        refine ⟨len2.trans ((setValueAt_len d1 nIdx c v).trans hd1len),
          keys2.trans (hd2keys.trans hd1keys), fun _ i => ?_, fun hc => absurd h1 hc, ?_⟩
        · rw [hform i]
          by_cases hieq : i = nIdx
          · subst hieq
            rw [if_pos rfl, if_pos rfl, hms2]
          · rw [if_neg hieq, if_neg hieq]
            have hrk2 : nrow2.rowKey = nrow.rowKey := by simp [hnrow2, hnrow1]
            rw [hrk2]
            by_cases hw : nIdx + 1 ≤ i ∧ (i : Int) < nIdx + (rsp.count - 1)
            · rw [if_pos hw, if_pos hw]
            · rw [if_neg hw, if_neg hw, hd2]
              rw [setValueAt_span d1 nIdx c v i c, hd1span_off i hieq]
        · rw [vals2 nIdx c, hd2, setValueAt_value_self d1 nIdx c v nrow1 hg1, if_pos hkp]
      · rw [if_neg hkp] at h
        obtain ⟨len2, keys2, vals2, pos2, _⟩ :=
          removePhase2_at d1 d' nIdx (rsp.count - 1) c nrow1 hg1
            (by rw [findRowIdx_congr d d1 hd1keys]; simpa [hnrow1] using hkeyn) hnd1 h
        obtain ⟨ms, hms, hform⟩ := pos2 h1
        have hms2 : ms = ns2 := by
          rw [hms] at hfind1
          exact (Option.some.injEq _ _).mp hfind1
        refine ⟨len2.trans hd1len, keys2.trans hd1keys, fun _ i => ?_,
          fun hc => absurd h1 hc, ?_⟩
        · rw [hform i]
          by_cases hieq : i = nIdx
          · subst hieq
            rw [if_pos rfl, if_pos rfl, hms2]
          · rw [if_neg hieq, if_neg hieq]
            have hrk1 : nrow1.rowKey = nrow.rowKey := by simp [hnrow1]
            rw [hrk1]
            by_cases hw : nIdx + 1 ≤ i ∧ (i : Int) < nIdx + (rsp.count - 1)
            · rw [if_pos hw, if_pos hw]
            · rw [if_neg hw, if_neg hw, hd1span_off i hieq]
        · rw [vals2 nIdx c, if_neg hkp]
          simp only [valueAt, hd1]
          rw [get?_set_self d nIdx nrow1 hnlt, hn]
          simp [rowValue, hnrow1]
  · rw [if_neg h1] at h
    dsimp only at h
    by_cases hkp : keep = true
    · rw [if_pos hkp] at h
      set v := rowValue removedRow c with hv
      set nrow2 : Row := Row.mk nrow.rowKey (alistSet nrow.values c v) nrow.rowSpanMap
        with hnrow2
      set d2 := setValueAt d nIdx c v with hd2
      have hg2 : d2.get? nIdx = some nrow2 := setValueAt_get_self d nIdx c v nrow hn
      have hd2keys : rowKeys d2 = rowKeys d := setValueAt_keys d nIdx c v
      have hkey2 : findRowIdx d2 nrow2.rowKey = some nIdx := by
        have : nrow2.rowKey = nrow.rowKey := by simp [hnrow2]
        rw [this, findRowIdx_congr d d2 hd2keys]
        exact hkeyn
      have hnd2 : (alistKeys nrow2.rowSpanMap).Nodup := by
        simpa [hnrow2] using hndn
      obtain ⟨len2, keys2, vals2, _, neg2⟩ :=
        removePhase2_at d2 d' nIdx (rsp.count - 1) c nrow2 hg2 hkey2 hnd2 h
      refine ⟨len2.trans (setValueAt_len d nIdx c v),
        keys2.trans hd2keys, fun hc => absurd hc h1, fun _ i => ?_, ?_⟩
      · rw [neg2 h1 i]
        by_cases hieq : i = nIdx
        · rw [if_pos hieq, if_pos hieq]
        · rw [if_neg hieq, if_neg hieq, hd2, setValueAt_span d nIdx c v i c]
      · rw [vals2 nIdx c, hd2, setValueAt_value_self d nIdx c v nrow hn, if_pos hkp]
    · rw [if_neg hkp] at h
      obtain ⟨len2, keys2, vals2, _, neg2⟩ :=
        removePhase2_at d d' nIdx (rsp.count - 1) c nrow hn hkeyn hndn h
      exact ⟨len2, keys2, fun hc => absurd hc h1, fun _ i => neg2 h1 i,
        by rw [vals2 nIdx c, if_neg hkp]⟩

/-- `updateRowSpanWhenRemove`, effect on one column `c` on which the
removed row owned the span: combined fold/frame transport of
`removeStep_at` back to the original data. -/
theorem removeMain_run (data data' : List Row) (removedRow : Row) (nIdx : Nat) (keep : Bool)
    (c : String) (rsp : RowSpan) (nrow : Row)
    (hr : alistFind removedRow.rowSpanMap c = some rsp)
    (hb : rsp.mainRow = true)
    (hrnd : (alistKeys removedRow.rowSpanMap).Nodup)
    (hn : data.get? nIdx = some nrow)
    (hkeyn : findRowIdx data nrow.rowKey = some nIdx)
    (hmnd : MapsNodup data)
    (hrun : updateRowSpanWhenRemove data removedRow nIdx keep = some data') :
    (1 < rsp.count - 1 → ∀ i : Nat, spanAt data' i c =
      if i = nIdx then some (RowSpan.mk true nrow.rowKey (rsp.count - 1) (rsp.count - 1))
      else if nIdx + 1 ≤ i ∧ (i : Int) < nIdx + (rsp.count - 1) then
        some (createRowSpan false nrow.rowKey (-(((i : Int)) - nIdx)) (rsp.count - 1))
      else spanAt data i c) ∧
    (¬ 1 < rsp.count - 1 → ∀ i : Nat, spanAt data' i c =
      if i = nIdx then none else spanAt data i c) ∧
    (valueAt data' nIdx c = if keep then some (rowValue removedRow c) else valueAt data nIdx c) := by
  unfold updateRowSpanWhenRemove at hrun
  rw [if_neg (by simp [isEmpty_false_of_find removedRow.rowSpanMap c rsp hr])] at hrun
  have hmem : c ∈ alistKeys removedRow.rowSpanMap :=
    mem_keys_of_alistFind_isSome _ _ (by simp [hr])
  obtain ⟨l1, l2, hsplit, hcl1, hcl2⟩ := keys_split hmem hrnd
  rw [hsplit, stepFold_append] at hrun
  cases h1 : stepFold (removeStep removedRow nIdx keep) l1 data with
  | none => rw [h1] at hrun; exact absurd hrun (by simp)
  | some d1 =>
    rw [h1] at hrun
    dsimp only at hrun
    simp only [stepFold] at hrun
    cases h2 : removeStep removedRow nIdx keep d1 c with
    | none => rw [h2] at hrun; exact absurd hrun (by simp)
    | some d2 =>
      rw [h2] at hrun
      dsimp only at hrun
      have F : ColFrame c data d1 :=
        stepFold_frame c _ l1
          (fun a b x hx hh => removeStep_frame removedRow nIdx keep a b x c
            (fun heq => hcl1 (heq ▸ hx)) hh) data d1 h1
      have G : ColFrame c d2 data' :=
        stepFold_frame c _ l2
          (fun a b x hx hh => removeStep_frame removedRow nIdx keep a b x c
            (fun heq => hcl2 (heq ▸ hx)) hh) d2 data' hrun
      have hnltd : nIdx < d1.length := by
        rw [F.len]
        exact lt_of_get?_some data nIdx nrow hn
      obtain ⟨nrow1, hn1⟩ := get?_some_of_lt d1 nIdx hnltd
      have hrk1 : nrow1.rowKey = nrow.rowKey := by
        have := rowKeys_get? data d1 F.keys nIdx
        rw [hn1, hn] at this
        simpa using this
      have hkey1 : findRowIdx d1 nrow1.rowKey = some nIdx := by
        rw [hrk1, findRowIdx_congr data d1 F.keys]
        exact hkeyn
      have hnd1 : (alistKeys nrow1.rowSpanMap).Nodup :=
        F.nodup hmnd nrow1 (List.get?_mem hn1)
      obtain ⟨_, _, pos2, neg2, val2⟩ :=
        removeStep_at removedRow nIdx keep d1 d2 c rsp nrow1 hr hb hn1 hkey1 hnd1 h2
      refine ⟨?_, ?_, ?_⟩
      · intro hk i
        rw [G.span i, pos2 hk i, hrk1]
        by_cases hieq : i = nIdx
        · rw [if_pos hieq, if_pos hieq]
        · rw [if_neg hieq, if_neg hieq]
          by_cases hw : nIdx + 1 ≤ i ∧ (i : Int) < nIdx + (rsp.count - 1)
          · rw [if_pos hw, if_pos hw]
          · rw [if_neg hw, if_neg hw, F.span i]
      · intro hk i
        rw [G.span i, neg2 hk i]
        by_cases hieq : i = nIdx
        · rw [if_pos hieq, if_pos hieq]
        · rw [if_neg hieq, if_neg hieq, F.span i]
      · rw [G.value nIdx, val2]
        by_cases hkp : keep = true
        · rw [if_pos hkp, if_pos hkp]
        · rw [if_neg hkp, if_neg hkp, F.value nIdx]

/-- C3.  Removing the main row of a span of size `k` on column `c` via
`updateRowSpanWhenRemove`: for `k ≥ 3`, `nextRow = data[nIdx]` is
promoted to main (`mainRow := true`, `mainRowKey :=` its own key) with
`spanCount = k - 1` and every remaining member is re-linked consistently
(`count = -offset`, same `spanCount`); if `keepRowSpanData` is set,
`nextRow`'s value in `c` becomes the removed row's prior value; and for
`k = 2` the span entry is deleted entirely, leaving both former members
unspanned on `c`. -/
theorem C3_remove_main_promotes_or_collapses
    (data data' : List Row) (removedRow : Row) (nIdx : Nat) (keep : Bool)
    (c : String) (mkey : Nat) (k : Int) (nrow : Row)
    (hr : alistFind removedRow.rowSpanMap c = some (RowSpan.mk true mkey k k))
    (hrnd : (alistKeys removedRow.rowSpanMap).Nodup)
    (hn : data.get? nIdx = some nrow)
    (hkeyn : findRowIdx data nrow.rowKey = some nIdx)
    (hmnd : MapsNodup data)
    (hrun : updateRowSpanWhenRemove data removedRow nIdx keep = some data') :
    (2 < k →
      spanAt data' nIdx c = some (RowSpan.mk true nrow.rowKey (k - 1) (k - 1)) ∧
      ∀ j : Nat, 1 ≤ j → (j : Int) ≤ k - 2 →
        spanAt data' (nIdx + j) c =
          some (createRowSpan false nrow.rowKey (-(j : Int)) (k - 1))) ∧
    (keep = true → valueAt data' nIdx c = some (rowValue removedRow c)) ∧
    (k = 2 → spanAt data' nIdx c = none) := by
  obtain ⟨pos, neg, val⟩ :=
    removeMain_run data data' removedRow nIdx keep c (RowSpan.mk true mkey k k) nrow
      hr rfl hrnd hn hkeyn hmnd hrun
  have pos' : 1 < k - 1 → ∀ i : Nat, spanAt data' i c =
      if i = nIdx then some (RowSpan.mk true nrow.rowKey (k - 1) (k - 1))
      else if nIdx + 1 ≤ i ∧ (i : Int) < nIdx + (k - 1) then
        some (createRowSpan false nrow.rowKey (-(((i : Int)) - nIdx)) (k - 1))
      else spanAt data i c := pos
  have neg' : ¬ 1 < k - 1 → ∀ i : Nat, spanAt data' i c =
      if i = nIdx then none else spanAt data i c := neg
  have val' : valueAt data' nIdx c =
      if keep then some (rowValue removedRow c) else valueAt data nIdx c := val
  refine ⟨?_, ?_, ?_⟩
  · intro hk
    have hk1 : 1 < k - 1 := by omega
    constructor
    · have h := pos' hk1 nIdx
      rwa [if_pos rfl] at h
    · intro j hj1 hj2
      have h := pos' hk1 (nIdx + j)
      rw [if_neg (by omega), if_pos (by refine ⟨by omega, ?_⟩; push_cast; omega)] at h
      have harith : (-((((nIdx + j : Nat)) : Int) - (nIdx : Int))) = -(j : Int) := by
        push_cast
        ring
      rwa [harith] at h
  · intro hkp
    rw [val', if_pos hkp]
  · intro hk2
    have h := neg' (by omega) nIdx
    rwa [if_pos rfl] at h

theorem C3_witness :
    updateRowSpanWhenRemove
        [Row.mk 1 [] [("c", RowSpan.mk false 100 (-1) 3)],
         Row.mk 2 [] [("c", RowSpan.mk false 100 (-2) 3)]]
        (Row.mk 100 [("c", CellValue.num 7)] [("c", RowSpan.mk true 100 3 3)]) 0 true =
      some [Row.mk 1 [("c", CellValue.num 7)] [("c", RowSpan.mk true 1 2 2)],
            Row.mk 2 [] [("c", RowSpan.mk false 1 (-1) 2)]] ∧
    spanAt [Row.mk 1 [("c", CellValue.num 7)] [("c", RowSpan.mk true 1 2 2)],
            Row.mk 2 [] [("c", RowSpan.mk false 1 (-1) 2)]] 0 "c" =
      some (RowSpan.mk true 1 2 2) ∧
    spanAt [Row.mk 1 [("c", CellValue.num 7)] [("c", RowSpan.mk true 1 2 2)],
            Row.mk 2 [] [("c", RowSpan.mk false 1 (-1) 2)]] 1 "c" =
      some (createRowSpan false 1 (-1) 2) ∧
    valueAt [Row.mk 1 [("c", CellValue.num 7)] [("c", RowSpan.mk true 1 2 2)],
             Row.mk 2 [] [("c", RowSpan.mk false 1 (-1) 2)]] 0 "c" =
      some (CellValue.num 7) := by
  have h := C3_remove_main_promotes_or_collapses
    [Row.mk 1 [] [("c", RowSpan.mk false 100 (-1) 3)],
     Row.mk 2 [] [("c", RowSpan.mk false 100 (-2) 3)]]
    [Row.mk 1 [("c", CellValue.num 7)] [("c", RowSpan.mk true 1 2 2)],
     Row.mk 2 [] [("c", RowSpan.mk false 1 (-1) 2)]]
    (Row.mk 100 [("c", CellValue.num 7)] [("c", RowSpan.mk true 100 3 3)]) 0 true "c" 100 3
    (Row.mk 1 [] [("c", RowSpan.mk false 100 (-1) 3)])
    (by decide) (by decide) (by decide) (by decide)
    (by unfold MapsNodup; decide) (by decide)
  obtain ⟨hpos, hval, _⟩ := h
  obtain ⟨hmain, hsub⟩ := hpos (by decide)
  refine ⟨by decide, hmain, ?_, hval (by decide)⟩
  have h1 := hsub 1 (by decide) (by decide)
  simpa using h1

/-- C9.  When the removed row is a span's main row, `keepRowSpanData`
copies its cell value into `nextRow` unconditionally — in particular for
a span of size 2, where the span entry is deleted (so `nextRow` is never
promoted to main) yet `nextRow` still receives the removed row's value. -/
theorem C9_remove_size2_value_copy
    (data data' : List Row) (removedRow : Row) (nIdx : Nat)
    (c : String) (mkey : Nat) (nrow : Row)
    (hr : alistFind removedRow.rowSpanMap c = some (RowSpan.mk true mkey 2 2))
    (hrnd : (alistKeys removedRow.rowSpanMap).Nodup)
    (hn : data.get? nIdx = some nrow)
    (hkeyn : findRowIdx data nrow.rowKey = some nIdx)
    (hmnd : MapsNodup data)
    (hrun : updateRowSpanWhenRemove data removedRow nIdx true = some data') :
    valueAt data' nIdx c = some (rowValue removedRow c) ∧
    spanAt data' nIdx c = none := by
  obtain ⟨_, neg, val⟩ :=
    removeMain_run data data' removedRow nIdx true c (RowSpan.mk true mkey 2 2) nrow
      hr rfl hrnd hn hkeyn hmnd hrun
  have neg' : ¬ (1 : Int) < 2 - 1 → ∀ i : Nat, spanAt data' i c =
      if i = nIdx then none else spanAt data i c := neg
  have val' : valueAt data' nIdx c =
      if true then some (rowValue removedRow c) else valueAt data nIdx c := val
  refine ⟨by rw [val', if_pos rfl], ?_⟩
  have h := neg' (by omega) nIdx
  rwa [if_pos rfl] at h

theorem C9_witness :
    updateRowSpanWhenRemove
        [Row.mk 1 [] [("c", RowSpan.mk false 100 (-1) 2)]]
        (Row.mk 100 [("c", CellValue.str "X")] [("c", RowSpan.mk true 100 2 2)]) 0 true =
      some [Row.mk 1 [("c", CellValue.str "X")] []] ∧
    valueAt [Row.mk 1 [("c", CellValue.str "X")] []] 0 "c" = some (CellValue.str "X") ∧
    spanAt [Row.mk 1 [("c", CellValue.str "X")] []] 0 "c" = none := by
  have h := C9_remove_size2_value_copy
    [Row.mk 1 [] [("c", RowSpan.mk false 100 (-1) 2)]]
    [Row.mk 1 [("c", CellValue.str "X")] []]
    (Row.mk 100 [("c", CellValue.str "X")] [("c", RowSpan.mk true 100 2 2)]) 0 "c" 100
    (Row.mk 1 [] [("c", RowSpan.mk false 100 (-1) 2)])
    (by decide) (by decide) (by decide) (by decide)
    (by unfold MapsNodup; decide) (by decide)
  exact ⟨by decide, h.1, h.2⟩

theorem C2_witness :
    updateRowSpanWhenAppend
        [Row.mk 0 [] [("c", RowSpan.mk true 0 2 2)], Row.mk 1 [] [],
         Row.mk 2 [] [("c", RowSpan.mk false 0 (-1) 2)]] 0 false =
      some [Row.mk 0 [] [("c", RowSpan.mk true 0 3 3)],
            Row.mk 1 [] [("c", RowSpan.mk false 0 (-1) 3)],
            Row.mk 2 [] [("c", RowSpan.mk false 0 (-2) 3)]] ∧
    spanAt [Row.mk 0 [] [("c", RowSpan.mk true 0 3 3)],
            Row.mk 1 [] [("c", RowSpan.mk false 0 (-1) 3)],
            Row.mk 2 [] [("c", RowSpan.mk false 0 (-2) 3)]] 0 "c" =
      some (RowSpan.mk true 0 3 3) ∧
    spanAt [Row.mk 0 [] [("c", RowSpan.mk true 0 3 3)],
            Row.mk 1 [] [("c", RowSpan.mk false 0 (-1) 3)],
            Row.mk 2 [] [("c", RowSpan.mk false 0 (-2) 3)]] 1 "c" =
      some (RowSpan.mk false 0 (-1) 3) := by
  have h := C2_append_grows_span_iff_live
    [Row.mk 0 [] [("c", RowSpan.mk true 0 2 2)], Row.mk 1 [] [],
     Row.mk 2 [] [("c", RowSpan.mk false 0 (-1) 2)]]
    [Row.mk 0 [] [("c", RowSpan.mk true 0 3 3)],
     Row.mk 1 [] [("c", RowSpan.mk false 0 (-1) 3)],
     Row.mk 2 [] [("c", RowSpan.mk false 0 (-2) 3)]]
    0 false "c"
    (Row.mk 0 [] [("c", RowSpan.mk true 0 2 2)]) (RowSpan.mk true 0 2 2) 0
    (Row.mk 0 [] [("c", RowSpan.mk true 0 2 2)]) (RowSpan.mk true 0 2 2)
    (by decide) (by decide) (by decide) (by decide) (by decide) (by decide) (by decide)
    (by decide)
  refine ⟨by decide, ?_, ?_⟩
  · have h0 := h.1.1 (by decide) 0
    rw [if_pos rfl] at h0
    exact h0.trans (by decide)
  · have h1 := h.1.1 (by decide) 1
    rw [if_neg (by decide), if_pos (by constructor <;> decide)] at h1
    exact h1.trans (by decide)

/-- C6.  Row-span behaviour is enabled exactly when the primary sort
column is the synthetic `sortKey`, and whenever it is disabled
`getRowRangeWithRowSpan` returns its input row range unchanged — for
every range, column set, focus index and dataset. -/
theorem C6_enabled_iff_natural_order :
    (∀ (s : SortState) (col : SortColumn) (rest : List SortColumn),
      s.columns = col :: rest →
      (isRowSpanEnabled s = true ↔ col.columnName = "sortKey")) ∧
    (∀ (rowRange colRange : Int × Int) (cols : List ColumnInfo) (rowIndex : Option Int)
      (d : DataState), isRowSpanEnabled d.sortState = false →
      getRowRangeWithRowSpan rowRange colRange cols rowIndex d = some rowRange) := by
  constructor
  · intro s col rest hcols
    unfold isRowSpanEnabled
    rw [hcols]
    simp
  · intro rowRange colRange cols rowIndex d hdis
    unfold getRowRangeWithRowSpan
    rw [hdis]
    simp

theorem C6_witness :
    (isRowSpanEnabled (SortState.mk [SortColumn.mk "name" true]) = true ↔
      ("name" : String) = "sortKey") ∧
    getRowRangeWithRowSpan (0, 5) (0, 1) []
      none (DataState.mk [] (SortState.mk [SortColumn.mk "name" true])) = some (0, 5) := by
  constructor
  · exact C6_enabled_iff_natural_order.1 (SortState.mk [SortColumn.mk "name" true])
      (SortColumn.mk "name" true) [] rfl
  · exact C6_enabled_iff_natural_order.2 (0, 5) (0, 1) [] none
      (DataState.mk [] (SortState.mk [SortColumn.mk "name" true])) (by decide)

theorem createSubRowSpan_keys_sublist (m : RowSpanMap) :
    (alistKeys (createSubRowSpan m)).Sublist (alistKeys m) := by
  induction m with
  | nil => simp [createSubRowSpan, alistKeys]
  | cons e es ih =>
    by_cases hc : e.2.spanCount > 1 - e.2.count
    · simp only [createSubRowSpan, List.filterMap_cons, if_pos hc]
      exact ih.cons₂ _
    · simp only [createSubRowSpan, List.filterMap_cons, if_neg hc]
      exact ih.cons _

theorem createSubRowSpan_find_none (m : RowSpanMap) (c : String)
    (hp : alistFind m c = none) : alistFind (createSubRowSpan m) c = none := by
  apply alistFind_eq_none_of_not_mem_keys
  intro hmem
  have hmem2 : c ∈ alistKeys m := (createSubRowSpan_keys_sublist m).subset hmem
  have := alistFind_isSome_of_mem_keys m c hmem2
  rw [hp] at this
  simp at this

theorem createSubRowSpan_find_some (m : RowSpanMap) (c : String) (p : RowSpan)
    (hnd : (alistKeys m).Nodup) (hp : alistFind m c = some p) :
    alistFind (createSubRowSpan m) c =
      if 1 - p.count < p.spanCount then
        some (createRowSpan false p.mainRowKey
          (if 0 ≤ p.count then -1 else p.count - 1) p.spanCount)
      else none := by
  induction m with
  | nil => simp [alistFind] at hp
  | cons e es ih =>
    simp only [alistKeys, List.map_cons, List.nodup_cons] at hnd
    by_cases he : e.1 = c
    · subst he
      simp only [alistFind, eq_self_iff_true, if_true, Option.some.injEq] at hp
      subst hp
      by_cases hc : 1 - e.2.count < e.2.spanCount
      · simp only [createSubRowSpan, List.filterMap_cons, if_pos hc]
        simp only [alistFind, eq_self_iff_true, if_true, if_pos hc]
      · simp only [createSubRowSpan, List.filterMap_cons, if_neg hc, if_neg hc]
        apply alistFind_eq_none_of_not_mem_keys
        intro hmem
        exact hnd.1 ((createSubRowSpan_keys_sublist es).subset hmem)
    · simp only [alistFind, if_neg he] at hp
      by_cases hc : 1 - e.2.count < e.2.spanCount
      · simp only [createSubRowSpan, List.filterMap_cons, if_pos hc]
        simp only [alistFind, if_neg he]
        exact ih hnd.2 hp
      · simp only [createSubRowSpan, List.filterMap_cons, if_neg hc]
        exact ih hnd.2 hp

/-- C7 counterexample: when the previous row's entry is a *main* entry
(`count = spanCount = 3`), the produced sub entry's `count` is `-1`, not
the claimed "previous count decremented by one" (`3 - 1 = 2`). -/
theorem C7_counterexample :
    alistFind (createSubRowSpan [("c", RowSpan.mk true 5 3 3)]) "c" =
      some (RowSpan.mk false 5 (-1) 3) ∧
    (RowSpan.mk false 5 (-1) 3).count ≠ (RowSpan.mk true 5 3 3).count - 1 := by
  constructor
  · rfl
  · decide

/-- C7 (amended).  `createSubRowSpan` produces a sub entry for a column
exactly when the source span still extends past the new row
(`spanCount > 1 - count`); the produced entry has `mainRow = false` and
the same `mainRowKey` and `spanCount` as the previous row's entry, and
its `count` is the previous `count` decremented by one when the previous
entry was a sub (`count < 0`), and `-1` when the previous entry was the
main row (`count ≥ 0`). -/
theorem C7_sub_span_derivation (m : RowSpanMap) (c : String) (p : RowSpan)
    (hnd : (alistKeys m).Nodup) (hp : alistFind m c = some p) :
    alistFind (createSubRowSpan m) c =
      if 1 - p.count < p.spanCount then
        some (createRowSpan false p.mainRowKey
          (if 0 ≤ p.count then -1 else p.count - 1) p.spanCount)
      else none :=
  createSubRowSpan_find_some m c p hnd hp

theorem C7_witness :
    alistFind (createSubRowSpan [("c", RowSpan.mk false 9 (-1) 3)]) "c" =
      some (createRowSpan false 9 (-2) 3) := by
  have h := C7_sub_span_derivation [("c", RowSpan.mk false 9 (-1) 3)] "c"
    (RowSpan.mk false 9 (-1) 3) (by decide) (by decide)
  rw [h]
  decide

/-! ### C8 — validation codes -/

/-- C8 counterexample: the column declares the numeric lower bound `0`
and the value `-1` violates it, yet no `MIN` code is produced — JS
truthiness (`min && ...`) skips a bound of `0`. -/
theorem C8_counterexample :
    (Validation.mk false none (some 0) none none none).min = some 0 ∧
    (-1 : Int) < 0 ∧
    getValidationCode (CellValue.num (-1))
      (some (Validation.mk false none (some 0) none none none)) = [] := by
  refine ⟨rfl, by decide, rfl⟩

theorem minViolated_iff (mi : Option Int) (value : CellValue) :
    minViolated mi value = true ↔
      ∃ m n, mi = some m ∧ m ≠ 0 ∧ value = CellValue.num n ∧ n < m := by
  cases mi with
  | none => simp [minViolated]
  | some m => cases value <;> simp [minViolated]

theorem maxViolated_iff (ma : Option Int) (value : CellValue) :
    maxViolated ma value = true ↔
      ∃ m n, ma = some m ∧ m ≠ 0 ∧ value = CellValue.num n ∧ m < n := by
  cases ma with
  | none => simp [maxViolated]
  | some m => cases value <;> simp [maxViolated]

theorem regExpViolated_iff (re : Option (String → Bool)) (value : CellValue) :
    regExpViolated re value = true ↔
      ∃ t s, re = some t ∧ value = CellValue.str s ∧ t s = false := by
  cases re with
  | none => simp [regExpViolated]
  | some t => cases value <;> simp [regExpViolated]

theorem validatorFnViolated_iff (fn : Option (CellValue → Bool)) (value : CellValue) :
    validatorFnViolated fn value = true ↔ ∃ f, fn = some f ∧ f value = false := by
  cases fn with
  | none => simp [validatorFnViolated]
  | some f => simp [validatorFnViolated]

theorem mem_ite_singleton {α : Type} (b : Prop) [Decidable b] (x y : α) :
    (y ∈ if b then [x] else []) ↔ (b ∧ y = x) := by
  by_cases hb : b <;> simp [hb]

theorem sublist_ite_cons {α : Type} (b : Prop) [Decidable b] (x : α) (l1 l2 : List α)
    (h : l1.Sublist l2) : ((if b then [x] else []) ++ l1).Sublist (x :: l2) := by
  by_cases hb : b
  · rw [if_pos hb]
    exact h.cons₂ x
  · rw [if_neg hb]
    exact h.cons x

theorem sublist_ite_base {α : Type} (b : Prop) [Decidable b] (x : α) :
    (if b then [x] else []).Sublist [x] := by
  by_cases hb : b
  · rw [if_pos hb]
  · rw [if_neg hb]
    simp

/-- C8 (amended).  `getValidationCode` returns exactly the codes whose
condition holds — REQUIRED for a blank value on a required column,
TYPE_STRING / TYPE_NUMBER for a declared-type mismatch, MIN / MAX for a
violated *nonzero* numeric bound (a bound of `0` is JS-falsy and never
enforced), REGEXP for a string failing the pattern, VALIDATOR_FN for a
false user predicate — several may appear at once, always in that fixed
evaluation order; a column without a validation option yields no code. -/
theorem C8_validation_codes (value : CellValue) (v : Validation) :
    (∀ code : ValidationType,
      code ∈ getValidationCode value (some v) ↔ specValidationCond code value v) ∧
    (getValidationCode value (some v)).Sublist
      [ValidationType.REQUIRED, ValidationType.TYPE_STRING, ValidationType.TYPE_NUMBER,
       ValidationType.MIN, ValidationType.MAX, ValidationType.REGEXP,
       ValidationType.VALIDATOR_FN] ∧
    getValidationCode value none = [] := by
  refine ⟨?_, ?_, rfl⟩
  · intro code
    cases code with
    | REQUIRED =>
      simp [getValidationCode, mem_ite_singleton, specValidationCond, Bool.and_eq_true]
    | TYPE_STRING =>
      simp [getValidationCode, mem_ite_singleton, specValidationCond, Bool.and_eq_true,
        Bool.not_eq_true']
    | TYPE_NUMBER =>
      simp [getValidationCode, mem_ite_singleton, specValidationCond, Bool.and_eq_true,
        Bool.not_eq_true']
    | MIN =>
      simp [getValidationCode, mem_ite_singleton, specValidationCond, minViolated_iff]
    | MAX =>
      simp [getValidationCode, mem_ite_singleton, specValidationCond, maxViolated_iff]
    | REGEXP =>
      simp [getValidationCode, mem_ite_singleton, specValidationCond, regExpViolated_iff]
    | VALIDATOR_FN =>
      simp [getValidationCode, mem_ite_singleton, specValidationCond, validatorFnViolated_iff]
  · simp only [getValidationCode, List.append_assoc]
    exact sublist_ite_cons _ _ _ _ (sublist_ite_cons _ _ _ _ (sublist_ite_cons _ _ _ _
      (sublist_ite_cons _ _ _ _ (sublist_ite_cons _ _ _ _ (sublist_ite_cons _ _ _ _
        (sublist_ite_base _ _))))))

theorem C8_witness :
    (ValidationType.REQUIRED ∈
        getValidationCode (CellValue.str "")
          (some (Validation.mk true (some CellDataType.number) none none none
            (some (fun _ => false)))) ↔
      specValidationCond ValidationType.REQUIRED (CellValue.str "")
        (Validation.mk true (some CellDataType.number) none none none
          (some (fun _ => false)))) ∧
    (getValidationCode (CellValue.str "")
        (some (Validation.mk true (some CellDataType.number) none none none
          (some (fun _ => false))))).Sublist
      [ValidationType.REQUIRED, ValidationType.TYPE_STRING, ValidationType.TYPE_NUMBER,
       ValidationType.MIN, ValidationType.MAX, ValidationType.REGEXP,
       ValidationType.VALIDATOR_FN] ∧
    getValidationCode (CellValue.str "")
        (some (Validation.mk true (some CellDataType.number) none none none
          (some (fun _ => false)))) =
      [ValidationType.REQUIRED, ValidationType.TYPE_NUMBER, ValidationType.VALIDATOR_FN] := by
  have h := C8_validation_codes (CellValue.str "")
    (Validation.mk true (some CellDataType.number) none none none (some (fun _ => false)))
  exact ⟨h.1 ValidationType.REQUIRED, h.2.1, rfl⟩

/-! ### C10 / C5 — focus resolution -/

/-- C10.  `getRowSpanByRowKey` never fails: it returns `null` when no row
carries the key or the found row has no entry for the column, and the
found row's entry otherwise; consequently `changeFocus` on an unspanned
or unknown cell (span lookup `null`) stores the requested row key. -/
theorem C10_getRowSpanByRowKey_total :
    (∀ (data : List Row) (rk : Nat) (c : String),
      findRowIdx data rk = none → getRowSpanByRowKey rk c data = none) ∧
    (∀ (data : List Row) (rk : Nat) (c : String) (i : Nat) (row : Row),
      findRowIdx data rk = some i → data.get? i = some row →
      getRowSpanByRowKey rk c data = alistFind row.rowSpanMap c) ∧
    (∀ (d : DataState) (focus : FocusState) (hiddenCols : String → Bool)
      (rk : Nat) (cn : String),
      isFocusedCell focus (some rk) (some cn) = false →
      hiddenCols cn = false →
      getRowSpanByRowKey rk cn d.rawData = none →
      (changeFocus d focus hiddenCols (some rk) (some cn) false).rowKey = some rk) := by
  refine ⟨?_, ?_, ?_⟩
  · intro data rk c h
    unfold getRowSpanByRowKey
    rw [h]
  · intro data rk c i row hidx hget
    unfold getRowSpanByRowKey
    rw [hidx]
    dsimp only
    unfold getRowSpan
    rw [hget]
  · intro d focus hiddenCols rk cn hfoc hhid hspan
    unfold changeFocus
    rw [if_neg (by simp [hfoc, hhid]), if_neg (by simp)]
    by_cases hcond :
        (truthyKey (some rk) && truthyStr (some cn) && isRowSpanEnabled d.sortState) = true
    · rw [if_pos hcond]
      dsimp only
      rw [hspan]
    · rw [if_neg hcond]

theorem C10_witness :
    getRowSpanByRowKey 7 "c" [Row.mk 5 [] []] = none ∧
    getRowSpanByRowKey 5 "c" [Row.mk 5 [] []] = none ∧
    (changeFocus
        (DataState.mk [Row.mk 5 [] []] (SortState.mk [SortColumn.mk "sortKey" true]))
        (FocusState.mk none none none none) (fun _ => false)
        (some 5) (some "c") false).rowKey = some 5 := by
  refine ⟨C10_getRowSpanByRowKey_total.1 [Row.mk 5 [] []] 7 "c" (by decide), ?_, ?_⟩
  · have h := C10_getRowSpanByRowKey_total.2.1 [Row.mk 5 [] []] 5 "c" 0 (Row.mk 5 [] [])
      (by decide) (by decide)
    rw [h]
    rfl
  · exact C10_getRowSpanByRowKey_total.2.2
      (DataState.mk [Row.mk 5 [] []] (SortState.mk [SortColumn.mk "sortKey" true]))
      (FocusState.mk none none none none) (fun _ => false) 5 "c"
      (by decide) rfl (by decide)

/-- C5 counterexample: the requested row key `0` is JS-falsy, so the
`rowKey && columnName && isRowSpanEnabled(...)` guard skips span
resolution even though row-span behaviour is enabled and the target cell
has a span entry whose `mainRowKey` is `7`: the stored focus row key
stays `0` instead of becoming the span's main row key. -/
theorem C5_counterexample :
    isRowSpanEnabled (SortState.mk [SortColumn.mk "sortKey" true]) = true ∧
    getRowSpanByRowKey 0 "c"
        [Row.mk 7 [] [("c", RowSpan.mk true 7 2 2)],
         Row.mk 0 [] [("c", RowSpan.mk false 7 (-1) 2)]] =
      some (RowSpan.mk false 7 (-1) 2) ∧
    (changeFocus
        (DataState.mk
          [Row.mk 7 [] [("c", RowSpan.mk true 7 2 2)],
           Row.mk 0 [] [("c", RowSpan.mk false 7 (-1) 2)]]
          (SortState.mk [SortColumn.mk "sortKey" true]))
        (FocusState.mk none none none none) (fun _ => false)
        (some 0) (some "c") false).rowKey = some 0 ∧
    (some (0 : Nat) ≠ some (7 : Nat)) := by
  refine ⟨by decide, by decide, by decide, by decide⟩

/-- C5 (amended).  A `changeFocus` call whose target column is visible,
whose address is not the currently focused one, whose notification is
not stopped, and whose requested `rowKey` and `columnName` are *truthy*
(nonzero / nonempty — JS `rowKey && columnName` truthiness guards the
lookup) stores the span's `mainRowKey` when row-span behaviour is
enabled and the target has a span entry (the requested key otherwise),
stores the requested column name, and sets `prevRowKey`/`prevColumnName`
from the address focused before the call (the source assigns both `prev`
fields before the new address). -/
theorem C5_changeFocus_resolves_to_main
    (d : DataState) (focus : FocusState) (hiddenCols : String → Bool)
    (rk : Nat) (cn : String) (res : FocusState)
    (hfoc : isFocusedCell focus (some rk) (some cn) = false)
    (hhid : hiddenCols cn = false)
    (hrk : rk ≠ 0) (hcn : cn ≠ "")
    (hres : changeFocus d focus hiddenCols (some rk) (some cn) false = res) :
    (isRowSpanEnabled d.sortState = true →
      res.rowKey = (match getRowSpanByRowKey rk cn d.rawData with
        | some rs => some rs.mainRowKey
        | none => some rk)) ∧
    (isRowSpanEnabled d.sortState = false → res.rowKey = some rk) ∧
    res.columnName = some cn ∧
    res.prevRowKey = focus.rowKey ∧
    res.prevColumnName = focus.columnName := by
  subst hres
  unfold changeFocus
  rw [if_neg (by simp [hfoc, hhid]), if_neg (by simp)]
  have htk : truthyKey (some rk) = true := by simp [truthyKey, hrk]
  have hts : truthyStr (some cn) = true := by simp [truthyStr, hcn]
  cases henb : isRowSpanEnabled d.sortState with
  | true =>
    rw [if_pos (by rw [htk, hts]; rfl)]
    dsimp only
    refine ⟨fun _ => ?_, fun hcon => absurd hcon (by decide), rfl, rfl, rfl⟩
    cases getRowSpanByRowKey rk cn d.rawData <;> rfl
  | false =>
    rw [if_neg (by simp)]
    exact ⟨fun hcon => absurd hcon (by decide), fun _ => rfl, rfl, rfl, rfl⟩

theorem C5_witness :
    (changeFocus
        (DataState.mk
          [Row.mk 7 [] [("c", RowSpan.mk true 7 2 2)],
           Row.mk 3 [] [("c", RowSpan.mk false 7 (-1) 2)]]
          (SortState.mk [SortColumn.mk "sortKey" true]))
        (FocusState.mk (some 9) (some "b") none none) (fun _ => false)
        (some 3) (some "c") false).rowKey = some 7 ∧
    (changeFocus
        (DataState.mk
          [Row.mk 7 [] [("c", RowSpan.mk true 7 2 2)],
           Row.mk 3 [] [("c", RowSpan.mk false 7 (-1) 2)]]
          (SortState.mk [SortColumn.mk "sortKey" true]))
        (FocusState.mk (some 9) (some "b") none none) (fun _ => false)
        (some 3) (some "c") false).prevRowKey = some 9 := by
  have h := C5_changeFocus_resolves_to_main
    (DataState.mk
      [Row.mk 7 [] [("c", RowSpan.mk true 7 2 2)],
       Row.mk 3 [] [("c", RowSpan.mk false 7 (-1) 2)]]
      (SortState.mk [SortColumn.mk "sortKey" true]))
    (FocusState.mk (some 9) (some "b") none none) (fun _ => false) 3 "c" _
    (by decide) rfl (by decide) (by decide) rfl
  refine ⟨?_, h.2.2.2.1⟩
  have h1 := h.1 (by decide)
  rw [h1]
  decide

/-! ### C4 — getMaxRowSpanRange -/

theorem listGetI_coe {α : Type} (l : List α) (n : Nat) : listGetI l (n : Int) = l.get? n := by
  unfold listGetI
  rw [if_pos (Int.ofNat_nonneg n)]
  simp

/-- C4 counterexample: a 1×1 selection at row 1 inside the `"c"` span
(main row 0, `spanCount = 2`), with a column *range* that also contains
column `"d"` carrying a different span (rows 1–2): the result is
`[0, 2]`, not the claimed `[mainRowIndex, mainRowIndex + spanCount - 1]
= [0, 1]` — the scan expands over every column of the range to a fixed
point. -/
theorem C4_counterexample :
    getMaxRowSpanRange (1, 1) (0, 1) [ColumnInfo.mk "c", ColumnInfo.mk "d"] (some 1)
        (DataState.mk
          [Row.mk 0 [] [("c", RowSpan.mk true 0 2 2)],
           Row.mk 1 [] [("c", RowSpan.mk false 0 (-1) 2), ("d", RowSpan.mk true 1 2 2)],
           Row.mk 2 [] [("d", RowSpan.mk false 1 (-1) 2)]]
          (SortState.mk [SortColumn.mk "sortKey" true])) = some (0, 2) ∧
    ((0 : Int), (2 : Int)) ≠ ((0 : Int), (1 : Int)) := by
  refine ⟨by decide, by decide⟩

/-- C4 (amended).  For a dataset in natural order containing a span of
size `spanCount ≥ 1` on column `c` (main row at `mIdx`, members at
`mIdx .. mIdx + spanCount - 1`), `getMaxRowSpanRange` applied to the 1×1
row range `[r, r]` at any member row `r`, with focus `r` or `null`, and
the single-column range `[cIdx, cIdx]` naming `c`, returns exactly
`[mIdx, mIdx + spanCount - 1]`. -/
theorem C4_max_range_of_single_cell
    (rawData : List Row) (ss : SortState) (cols : List ColumnInfo)
    (c : String) (cIdx mIdx r : Nat) (s : Int) (mrow : Row) (fo : Option Int)
    (hm : rawData.get? mIdx = some mrow)
    (hmain : alistFind mrow.rowSpanMap c = some (RowSpan.mk true mrow.rowKey s s))
    (hsubs : ∀ j : Nat, 1 ≤ j → (j : Int) ≤ s - 1 →
      ∃ row, rawData.get? (mIdx + j) = some row ∧
        alistFind row.rowSpanMap c = some (RowSpan.mk false mrow.rowKey (-(j : Int)) s))
    (hfind : findRowIdx rawData mrow.rowKey = some mIdx)
    (hr1 : mIdx ≤ r) (hr2 : (r : Int) ≤ (mIdx : Int) + s - 1)
    (hcol : cols.get? cIdx = some (ColumnInfo.mk c))
    (hfo : fo = none ∨ fo = some (r : Int)) :
    getMaxRowSpanRange ((r : Int), (r : Int)) ((cIdx : Int), (cIdx : Int)) cols fo
      (DataState.mk rawData ss) = some ((mIdx : Int), (mIdx : Int) + s - 1) := by
  have hNpos : mIdx < rawData.length := lt_of_get?_some rawData mIdx mrow hm
  -- every row index inside the span carries an entry pointing to the main row
  have hmember : ∀ x : Int, (mIdx : Int) ≤ x → x ≤ (mIdx : Int) + s - 1 →
      ∃ row e, listGetI rawData x = some row ∧ alistFind row.rowSpanMap c = some e ∧
        e.mainRowKey = mrow.rowKey ∧ e.spanCount = s := by
    intro x hx1 hx2
    by_cases hx : x = (mIdx : Int)
    · subst hx
      refine ⟨mrow, RowSpan.mk true mrow.rowKey s s, ?_, hmain, rfl, rfl⟩
      rw [listGetI_coe]
      exact hm
    · have hj1 : 1 ≤ (x - mIdx).toNat := by omega
      have hj2 : (((x - mIdx).toNat : Nat) : Int) ≤ s - 1 := by omega
      obtain ⟨row, hrow, hentry⟩ := hsubs (x - mIdx).toNat hj1 hj2
      refine ⟨row, _, ?_, hentry, rfl, rfl⟩
      have hxi : x = ((mIdx + (x - mIdx).toNat : Nat) : Int) := by
        push_cast
        omega
      rw [hxi, listGetI_coe]
      exact hrow
  have hcols : listGetI cols (cIdx : Int) = some (ColumnInfo.mk c) := by
    rw [listGetI_coe]
    exact hcol
  have hmidx : findPropIndexKey mrow.rowKey rawData = (mIdx : Int) := by
    unfold findPropIndexKey
    rw [hfind]
  have hstep : ∀ x1 x2 : Int, (mIdx : Int) ≤ x1 → x1 ≤ (mIdx : Int) + s - 1 →
      (mIdx : Int) ≤ x2 → x2 ≤ (mIdx : Int) + s - 1 →
      colScanStep rawData cols x1 x2 (cIdx : Int) =
        some ((mIdx : Int), (mIdx : Int) + s - 1) := by
    intro x1 x2 h11 h12 h21 h22
    obtain ⟨row1, e1, hg1, hf1, hk1, he1⟩ := hmember x1 h11 h12
    obtain ⟨row2, e2, hg2, hf2, hk2, he2⟩ := hmember x2 h21 h22
    unfold colScanStep
    rw [hg1, hg2, hcols]
    dsimp only
    rw [hf1, hf2]
    dsimp only
    rw [hk1, hk2, hmidx, he2]
    have hst : (if (mIdx : Int) < x1 then (mIdx : Int) else x1) = (mIdx : Int) := by
      by_cases hlt : (mIdx : Int) < x1
      · rw [if_pos hlt]
      · rw [if_neg hlt]
        omega
    have hen : (if x2 < (mIdx : Int) + s - 1 then (mIdx : Int) + s - 1 else x2) =
        (mIdx : Int) + s - 1 := by
      by_cases hlt : x2 < (mIdx : Int) + s - 1
      · rw [if_pos hlt]
      · rw [if_neg hlt]
        omega
    rw [hst, hen]
  have hrangeL : intRangeIncl (cIdx : Int) (cIdx : Int) = [(cIdx : Int)] := by
    unfold intRangeIncl
    rw [show ((cIdx : Int) + 1 - cIdx) = 1 from by ring]
    rw [show ((1 : Int).toNat) = 1 from rfl]
    rw [show List.range 1 = [0] from rfl]
    simp
  have hscan : ∀ x1 x2 : Int, (mIdx : Int) ≤ x1 → x1 ≤ (mIdx : Int) + s - 1 →
      (mIdx : Int) ≤ x2 → x2 ≤ (mIdx : Int) + s - 1 →
      colScan rawData cols [(cIdx : Int)] (x1, x2) =
        some ((mIdx : Int), (mIdx : Int) + s - 1) := by
    intro x1 x2 h11 h12 h21 h22
    simp only [colScan]
    rw [hstep x1 x2 h11 h12 h21 h22]
  have hF : ∀ f : Nat, getRowSpanRangeF rawData cols (f + 2) ((r : Int), (r : Int))
      ((cIdx : Int), (cIdx : Int)) = some ((mIdx : Int), (mIdx : Int) + s - 1) := by
    intro f
    simp only [getRowSpanRangeF, hrangeL]
    rw [hscan (r : Int) (r : Int) (by omega) (by omega) (by omega) (by omega)]
    dsimp only
    rw [hscan (mIdx : Int) ((mIdx : Int) + s - 1) (by omega) (by omega) (by omega) (by omega)]
    dsimp only
    by_cases hchg : (mIdx : Int) ≠ (r : Int) ∨ (mIdx : Int) + s - 1 ≠ (r : Int)
    · rw [if_pos hchg, if_neg (by simp)]
    · rw [if_neg hchg]
  have hfuel : ∃ f : Nat, 2 * rawData.length + 1 = f + 2 := ⟨2 * rawData.length - 1, by omega⟩
  obtain ⟨f, hf⟩ := hfuel
  have hinner : getRowSpanRange ((r : Int), (r : Int)) ((cIdx : Int), (cIdx : Int)) cols
      (DataState.mk rawData ss) = some ((mIdx : Int), (mIdx : Int) + s - 1) := by
    unfold getRowSpanRange
    dsimp only
    rw [hf]
    exact hF f
  unfold getMaxRowSpanRange
  have hscr : getSortedRange ((cIdx : Int), (cIdx : Int)) = ((cIdx : Int), (cIdx : Int)) := by
    unfold getSortedRange
    rw [if_neg (by omega)]
  have hsrr : getSortedRange ((r : Int), (r : Int)) = ((r : Int), (r : Int)) := by
    unfold getSortedRange
    rw [if_neg (by omega)]
  rcases hfo with hfo | hfo
  · subst hfo
    dsimp only
    rw [hscr, hsrr, hinner]
    dsimp only
    rw [if_neg (by omega)]
  · subst hfo
    dsimp only
    rw [if_neg (by omega)]
    rw [hscr, hsrr, hinner]
    dsimp only
    rw [if_neg (by omega)]

theorem C4_witness :
    getMaxRowSpanRange (1, 1) (0, 0) [ColumnInfo.mk "c"] (some 1)
        (DataState.mk
          [Row.mk 0 [] [("c", RowSpan.mk true 0 3 3)],
           Row.mk 1 [] [("c", RowSpan.mk false 0 (-1) 3)],
           Row.mk 2 [] [("c", RowSpan.mk false 0 (-2) 3)]]
          (SortState.mk [SortColumn.mk "sortKey" true])) = some (0, 2) := by
  have h := C4_max_range_of_single_cell
    [Row.mk 0 [] [("c", RowSpan.mk true 0 3 3)],
     Row.mk 1 [] [("c", RowSpan.mk false 0 (-1) 3)],
     Row.mk 2 [] [("c", RowSpan.mk false 0 (-2) 3)]]
    (SortState.mk [SortColumn.mk "sortKey" true]) [ColumnInfo.mk "c"] "c" 0 0 1 3
    (Row.mk 0 [] [("c", RowSpan.mk true 0 3 3)]) (some 1)
    (by decide) (by decide) ?_ (by decide) (by decide) (by decide) (by decide)
    (Or.inr (by decide))
  · exact h.trans (by decide)
  · intro j hj1 hj2
    have hj2n : j ≤ 2 := by omega
    interval_cases j
    · exact ⟨Row.mk 1 [] [("c", RowSpan.mk false 0 (-1) 3)], by decide, by decide⟩
    · exact ⟨Row.mk 2 [] [("c", RowSpan.mk false 0 (-2) 3)], by decide, by decide⟩

/-! ### C1 — dataset construction invariant -/

theorem alistFind_append {α : Type} (x y : List (String × α)) (c : String) :
    alistFind (x ++ y) c =
      match alistFind x c with
      | some v => some v
      | none => alistFind y c := by
  induction x with
  | nil => simp [alistFind]
  | cons e es ih =>
    by_cases he : e.1 = c
    · simp [alistFind, he]
    · simp only [List.cons_append, alistFind, if_neg he]
      exact ih

theorem alistFind_map_keyed {α β : Type} (l : List (String × α)) (g : String → α → β)
    (c : String) :
    alistFind (l.map (fun e => (e.1, g e.1 e.2))) c = (alistFind l c).map (g c) := by
  induction l with
  | nil => simp [alistFind]
  | cons e es ih =>
    by_cases he : e.1 = c
    · subst he
      simp [alistFind]
    · simp only [List.map_cons, alistFind, if_neg he, ih]

theorem alistFind_filter_keyPred {α : Type} (l : List (String × α)) (p : String → Bool)
    (c : String) :
    alistFind (l.filter (fun e => p e.1)) c =
      if p c then alistFind l c else none := by
  induction l with
  | nil => simp [alistFind]
  | cons e es ih =>
    have hfind : alistFind (e :: es) c = if e.1 = c then some e.2 else alistFind es c := rfl
    by_cases hp : p e.1
    · rw [List.filter_cons_of_pos (by simpa using hp)]
      by_cases he : e.1 = c
      · subst he
        simp [alistFind, hp]
      · rw [hfind, if_neg he]
        simp only [alistFind, if_neg he]
        exact ih
    · rw [List.filter_cons_of_neg (by simpa using hp)]
      by_cases he : e.1 = c
      · subst he
        rw [ih, hfind, if_pos rfl]
        simp [hp]
      · rw [ih, hfind, if_neg he]

theorem mergeMaps_find (a b : RowSpanMap) (c : String) :
    alistFind (mergeMaps a b) c =
      match alistFind a c, alistFind b c with
      | some _, some bv => some bv
      | some av, none => some av
      | none, bv => bv := by
  unfold mergeMaps
  rw [alistFind_append]
  have hmap : alistFind
      (a.map (fun e => ((e.1 : String), ((alistFind b e.1).getD e.2 : RowSpan)))) c =
      (alistFind a c).map (fun v => (alistFind b c).getD v) :=
    alistFind_map_keyed a (fun x v => (alistFind b x).getD v) c
  rw [hmap]
  have hfil : alistFind (b.filter (fun e => (alistFind a e.1).isNone)) c =
      if (alistFind a c).isNone then alistFind b c else none :=
    alistFind_filter_keyPred b (fun x => (alistFind a x).isNone) c
  cases ha : alistFind a c with
  | none =>
    rw [hfil]
    simp [ha]
  | some av =>
    cases hb : alistFind b c with
    | none => simp [hb]
    | some bv => simp [hb]

theorem createMainRowSpanMap_find (decl : RowSpanDecl) (rk : Nat) (c : String) :
    alistFind (createMainRowSpanMap decl rk) c =
      (alistFind decl c).map (fun v => createRowSpan true rk v v) := by
  unfold createMainRowSpanMap
  exact alistFind_map_keyed decl (fun _ v => createRowSpan true rk v v) c

theorem alistFind_mem {α : Type} (m : List (String × α)) (c : String) (v : α)
    (h : alistFind m c = some v) : (c, v) ∈ m := by
  induction m with
  | nil => simp [alistFind] at h
  | cons e es ih =>
    by_cases he : e.1 = c
    · simp only [alistFind, if_pos he, Option.some.injEq] at h
      subst h
      subst he
      exact List.mem_cons_self _ _
    · simp only [alistFind, if_neg he] at h
      exact List.mem_cons_of_mem _ (ih h)

theorem mem_mergeMaps {x : String} {e : RowSpan} {a b : List (String × RowSpan)}
    (h : (x, e) ∈ mergeMaps a b) : (x, e) ∈ a ∨ (x, e) ∈ b := by
  unfold mergeMaps at h
  rw [List.mem_append] at h
  rcases h with h | h
  · rw [List.mem_map] at h
    obtain ⟨ae, hae, heq⟩ := h
    have hx : ae.1 = x := by
      have := congrArg Prod.fst heq
      simpa using this
    have he : (alistFind b ae.1).getD ae.2 = e := by
      have := congrArg Prod.snd heq
      simpa using this
    cases hb : alistFind b ae.1 with
    | none =>
      left
      rw [hb] at he
      simp at he
      subst hx
      rw [← he]
      exact hae
    | some bv =>
      right
      rw [hb] at he
      simp at he
      subst hx
      rw [← he]
      exact alistFind_mem b ae.1 bv hb
  · exact Or.inr (List.mem_of_mem_filter h)

theorem mem_createMainRowSpanMap {x : String} {e : RowSpan} {decl : List (String × Int)} {rk : Nat}
    (h : (x, e) ∈ createMainRowSpanMap decl rk) : e.mainRowKey = rk := by
  unfold createMainRowSpanMap at h
  rw [List.mem_map] at h
  obtain ⟨de, _, heq⟩ := h
  have := congrArg Prod.snd heq
  simp only at this
  rw [← this]
  rfl

theorem mem_createSubRowSpan {x : String} {e : RowSpan} {m : List (String × RowSpan)}
    (h : (x, e) ∈ createSubRowSpan m) :
    ∃ p : RowSpan, (x, p) ∈ m ∧ e.mainRowKey = p.mainRowKey ∧ e.spanCount = p.spanCount ∧
      e.mainRow = false := by
  unfold createSubRowSpan at h
  rw [List.mem_filterMap] at h
  obtain ⟨me, hme, heq⟩ := h
  by_cases hc : me.2.spanCount > 1 - me.2.count
  · rw [if_pos hc] at heq
    simp only [Option.some.injEq] at heq
    have hx : me.1 = x := by
      have := congrArg Prod.fst heq
      simpa using this
    have he : createRowSpan false me.2.mainRowKey
        (if 0 ≤ me.2.count then -1 else me.2.count - 1) me.2.spanCount = e := by
      have := congrArg Prod.snd heq
      simpa using this
    refine ⟨me.2, by rw [← hx]; exact hme, ?_, ?_, ?_⟩
    · rw [← he]
      rfl
    · rw [← he]
      rfl
    · rw [← he]
      rfl
  · rw [if_neg hc] at heq
    exact absurd heq (by simp)

theorem createDataGo_length (os : List OptRow) (i : Nat) (p : Option Row) :
    (createDataGo os i p).length = os.length := by
  induction os generalizing i p with
  | nil => rfl
  | cons o os ih =>
    simp only [createDataGo, List.length_cons]
    rw [ih]

theorem createDataGo_get_zero (o : OptRow) (os : List OptRow) (i : Nat) (p : Option Row) :
    (createDataGo (o :: os) i p).get? 0 = some (createRawRow o i p) := rfl

theorem createDataGo_rowKey (os : List OptRow) (i j : Nat) (p : Option Row) (row : Row)
    (h : (createDataGo os i p).get? j = some row) : row.rowKey = i + j := by
  induction os generalizing i j p with
  | nil => simp [createDataGo] at h
  | cons o os ih =>
    cases j with
    | zero =>
      simp only [createDataGo, List.get?] at h
      cases h
      rfl
    | succ j' =>
      simp only [createDataGo, List.get?] at h
      have := ih (i + 1) j' _ h
      omega

theorem createDataGo_get_succ (os : List OptRow) (i j : Nat) (p : Option Row) (row : Row)
    (h : (createDataGo os i p).get? j = some row) :
    (createDataGo os i p).get? (j + 1) =
      (os.get? (j + 1)).map (fun o => createRawRow o (i + j + 1) (some row)) := by
  induction os generalizing i j p with
  | nil => simp [createDataGo] at h
  | cons o os ih =>
    cases j with
    | zero =>
      simp only [createDataGo, List.get?] at h
      cases h
      cases os with
      | nil => rfl
      | cons o' os' => rfl
    | succ j' =>
      simp only [createDataGo, List.get?] at h
      have step := ih (i + 1) j' _ h
      simp only [createDataGo, List.get?]
      rw [step]
      have : i + 1 + j' + 1 = i + (j' + 1) + 1 := by omega
      rw [this]

theorem alistKeys_map_keyed {α β : Type} (l : List (String × α)) (g : String → α → β) :
    alistKeys (l.map (fun e => (e.1, g e.1 e.2))) = alistKeys l := by
  induction l with
  | nil => rfl
  | cons e es ih =>
    simp only [List.map_cons, alistKeys] at *
    rw [ih]

theorem mergeMaps_keys_nodup (a b : RowSpanMap) (ha : (alistKeys a).Nodup)
    (hb : (alistKeys b).Nodup) : (alistKeys (mergeMaps a b)).Nodup := by
  unfold mergeMaps
  have hkeys : alistKeys
      (a.map (fun e => ((e.1 : String), ((alistFind b e.1).getD e.2 : RowSpan)))
        ++ b.filter (fun e => (alistFind a e.1).isNone)) =
      alistKeys a ++ alistKeys (b.filter (fun e => (alistFind a e.1).isNone)) := by
    unfold alistKeys
    rw [List.map_append]
    congr 1
    exact alistKeys_map_keyed a (fun x v => (alistFind b x).getD v)
  rw [hkeys, List.nodup_append]
  refine ⟨ha, ((List.filter_sublist b).map Prod.fst).nodup hb, ?_⟩
  intro x hxa hxb
  unfold alistKeys at hxb
  rw [List.mem_map] at hxb
  obtain ⟨e, hef, hex⟩ := hxb
  rw [List.mem_filter] at hef
  have hnone : alistFind a x = none := by
    have := hef.2
    rw [hex] at this
    exact Option.isNone_iff_eq_none.mp this
  have hsome := alistFind_isSome_of_mem_keys a x hxa
  rw [hnone] at hsome
  simp at hsome

theorem createRowSpanMap_nodup (decl : RowSpanDecl) (rk : Nat) (p : Option Row)
    (hdecl : (alistKeys decl).Nodup)
    (hp : ∀ r, p = some r → (alistKeys r.rowSpanMap).Nodup) :
    (alistKeys (createRowSpanMap decl rk p)).Nodup := by
  cases p with
  | none =>
    unfold createRowSpanMap
    apply mergeMaps_keys_nodup
    · by_cases he : decl.isEmpty
      · rw [if_pos he]
        exact List.nodup_nil
      · rw [if_neg he]
        unfold createMainRowSpanMap
        rw [alistKeys_map_keyed decl (fun _ v => createRowSpan true rk v v)]
        exact hdecl
    · exact List.nodup_nil
  | some pr =>
    unfold createRowSpanMap
    apply mergeMaps_keys_nodup
    · by_cases he : decl.isEmpty
      · rw [if_pos he]
        exact List.nodup_nil
      · rw [if_neg he]
        unfold createMainRowSpanMap
        rw [alistKeys_map_keyed decl (fun _ v => createRowSpan true rk v v)]
        exact hdecl
    · dsimp only
      by_cases he : pr.rowSpanMap.isEmpty
      · rw [if_pos he]
        exact List.nodup_nil
      · rw [if_neg he]
        exact (createSubRowSpan_keys_sublist pr.rowSpanMap).nodup (hp pr rfl)

theorem createRawRow_map_nodup (o : OptRow) (i : Nat) (p : Option Row)
    (hdecl : (alistKeys o.rowSpan).Nodup)
    (hp : ∀ r, p = some r → (alistKeys r.rowSpanMap).Nodup) :
    (alistKeys (createRawRow o i p).rowSpanMap).Nodup :=
  createRowSpanMap_nodup o.rowSpan i p hdecl hp

theorem createDataGo_maps_nodup (os : List OptRow) (i j : Nat) (p : Option Row) (row : Row)
    (hos : ∀ o ∈ os, (alistKeys o.rowSpan).Nodup)
    (hp : ∀ r, p = some r → (alistKeys r.rowSpanMap).Nodup)
    (h : (createDataGo os i p).get? j = some row) :
    (alistKeys row.rowSpanMap).Nodup := by
  induction os generalizing i j p with
  | nil => simp [createDataGo] at h
  | cons o os ih =>
    cases j with
    | zero =>
      simp only [createDataGo, List.get?] at h
      cases h
      exact createRawRow_map_nodup o i p (hos o (List.mem_cons_self o os)) hp
    | succ j' =>
      simp only [createDataGo, List.get?] at h
      exact ih (i + 1) j' _ (fun o' ho' => hos o' (List.mem_cons_of_mem o ho'))
        (fun r hr => by
          cases hr
          exact createRawRow_map_nodup o i p (hos o (List.mem_cons_self o os)) hp) h

theorem createRowSpanMap_find_main (decl : RowSpanDecl) (rk : Nat) (c : String) :
    alistFind (if decl.isEmpty then ([] : RowSpanMap) else createMainRowSpanMap decl rk) c =
      (alistFind decl c).map (fun v => createRowSpan true rk v v) := by
  cases hd : decl with
  | nil => rfl
  | cons d ds =>
    rw [if_neg (by simp [List.isEmpty])]
    exact createMainRowSpanMap_find _ rk c

theorem createRowSpanMap_find_noprev (decl : RowSpanDecl) (rk : Nat) (c : String) :
    alistFind (createRowSpanMap decl rk none) c =
      (alistFind decl c).map (fun v => createRowSpan true rk v v) := by
  unfold createRowSpanMap
  dsimp only
  rw [mergeMaps_find, createRowSpanMap_find_main decl rk c]
  cases alistFind decl c <;> rfl

theorem createRowSpanMap_find_subnone (decl : RowSpanDecl) (rk : Nat) (pr : Row) (c : String)
    (hnone : alistFind (createSubRowSpan pr.rowSpanMap) c = none) :
    alistFind (createRowSpanMap decl rk (some pr)) c =
      (alistFind decl c).map (fun v => createRowSpan true rk v v) := by
  unfold createRowSpanMap
  dsimp only
  rw [mergeMaps_find, createRowSpanMap_find_main decl rk c]
  have hsub : alistFind
      (if pr.rowSpanMap.isEmpty then ([] : RowSpanMap) else createSubRowSpan pr.rowSpanMap) c =
      none := by
    by_cases he : pr.rowSpanMap.isEmpty
    · rw [if_pos he]
      rfl
    · rw [if_neg he]
      exact hnone
  rw [hsub]
  cases alistFind decl c <;> rfl

theorem createRowSpanMap_find_subsome (decl : RowSpanDecl) (rk : Nat) (pr : Row) (c : String)
    (sv : RowSpan) (hsv : alistFind (createSubRowSpan pr.rowSpanMap) c = some sv) :
    alistFind (createRowSpanMap decl rk (some pr)) c = some sv := by
  unfold createRowSpanMap
  dsimp only
  rw [mergeMaps_find, createRowSpanMap_find_main decl rk c]
  have hsub : alistFind
      (if pr.rowSpanMap.isEmpty then ([] : RowSpanMap) else createSubRowSpan pr.rowSpanMap) c =
      some sv := by
    by_cases he : pr.rowSpanMap.isEmpty
    · exfalso
      have hempty : pr.rowSpanMap = [] := by
        cases hmm : pr.rowSpanMap with
        | nil => rfl
        | cons x xs =>
          rw [hmm] at he
          simp [List.isEmpty] at he
      rw [hempty] at hsv
      exact absurd hsv (by simp [createSubRowSpan, alistFind])
    · rw [if_neg he]
      exact hsv
  rw [hsub]
  cases alistFind decl c <;> rfl

theorem createRawRow_mainRowKey_le (o : OptRow) (i : Nat) (p : Option Row)
    (hp : ∀ r, p = some r → ∀ x e, (x, e) ∈ r.rowSpanMap → e.mainRowKey < i) :
    ∀ x e, (x, e) ∈ (createRawRow o i p).rowSpanMap → e.mainRowKey ≤ i := by
  intro x e hmem
  have hmem' : (x, e) ∈ createRowSpanMap o.rowSpan i p := hmem
  unfold createRowSpanMap at hmem'
  rcases mem_mergeMaps hmem' with hmain | hsub
  · by_cases hd : o.rowSpan.isEmpty
    · rw [if_pos hd] at hmain
      simp at hmain
    · rw [if_neg hd] at hmain
      have := mem_createMainRowSpanMap hmain
      omega
  · cases p with
    | none => simp at hsub
    | some pr =>
      dsimp only at hsub
      by_cases he : pr.rowSpanMap.isEmpty
      · rw [if_pos he] at hsub
        simp at hsub
      · rw [if_neg he] at hsub
        obtain ⟨q, hq, hkey, _, _⟩ := mem_createSubRowSpan hsub
        have := hp pr rfl x q hq
        omega

theorem createDataGo_mainRowKey_le (os : List OptRow) (i j : Nat) (p : Option Row) (row : Row)
    (hp : ∀ r, p = some r → ∀ x e, (x, e) ∈ r.rowSpanMap → e.mainRowKey < i)
    (h : (createDataGo os i p).get? j = some row) :
    ∀ x e, (x, e) ∈ row.rowSpanMap → e.mainRowKey ≤ i + j := by
  induction os generalizing i j p with
  | nil => simp [createDataGo] at h
  | cons o os ih =>
    cases j with
    | zero =>
      simp only [createDataGo, List.get?] at h
      cases h
      intro x e hmem
      have := createRawRow_mainRowKey_le o i p hp x e hmem
      omega
    | succ j' =>
      simp only [createDataGo, List.get?] at h
      intro x e hmem
      have := ih (i + 1) j' _ (fun r hr x' e' hm' => by
        cases hr
        have := createRawRow_mainRowKey_le o i p hp x' e' hm'
        omega) h x e hmem
      omega

theorem spanAt_of_get (d : List Row) (i : Nat) (c : String) (row : Row)
    (h : d.get? i = some row) : spanAt d i c = alistFind row.rowSpanMap c := by
  unfold spanAt
  rw [h]

theorem createData_span_chain (opts : List OptRow) (r kn : Nat) (k : Int) (c : String) (o : OptRow)
    (hnodup : ∀ o' ∈ opts, (alistKeys o'.rowSpan).Nodup)
    (ho : opts.get? r = some o)
    (hk : alistFind o.rowSpan c = some k)
    (hkn : (kn : Int) = k) (hk2 : 2 ≤ kn)
    (hlen : r + kn ≤ opts.length)
    (hcov : r = 0 ∨ ∃ prow, (createData opts).get? (r - 1) = some prow ∧
      alistFind (createSubRowSpan prow.rowSpanMap) c = none) :
    ∀ j, j ≤ kn - 1 →
      spanAt (createData opts) (r + j) c =
        some (if j = 0 then RowSpan.mk true r k k
          else RowSpan.mk false r (-(j : Int)) k) := by
  have head : spanAt (createData opts) r c = some (RowSpan.mk true r k k) := by
    cases r with
    | zero =>
      cases opts with
      | nil => simp [List.get?] at ho
      | cons o0 os0 =>
        have ho0 : o0 = o := by simpa [List.get?] using ho
        subst ho0
        have hget0 : (createData (o0 :: os0)).get? 0 = some (createRawRow o0 0 none) :=
          createDataGo_get_zero o0 os0 0 none
        rw [spanAt_of_get _ _ _ _ hget0]
        show alistFind (createRowSpanMap o0.rowSpan 0 none) c = _
        rw [createRowSpanMap_find_noprev, hk]
        rfl
    | succ r' =>
      rcases hcov with h0 | ⟨prow, hprow, hsubnone⟩
      · exact absurd h0 (by omega)
      · have hprow' : (createData opts).get? r' = some prow := by simpa using hprow
        have hstep := createDataGo_get_succ opts 0 r' none prow hprow'
        rw [ho] at hstep
        have harith : 0 + r' + 1 = r' + 1 := by omega
        rw [harith] at hstep
        simp only [Option.map_some'] at hstep
        have hget : (createData opts).get? (r' + 1) =
            some (createRawRow o (r' + 1) (some prow)) := hstep
        rw [spanAt_of_get _ _ _ _ hget]
        show alistFind (createRowSpanMap o.rowSpan (r' + 1) (some prow)) c = _
        rw [createRowSpanMap_find_subnone _ _ _ _ hsubnone, hk]
        rfl
  intro j
  induction j with
  | zero =>
    intro _
    rw [if_pos rfl]
    exact head
  | succ j' ihj =>
    intro hj
    have hj2 : j' ≤ kn - 1 := by omega
    have prev := ihj hj2
    obtain ⟨rowP, hgetP, hfindP⟩ := spanAt_inv _ _ _ _ prev
    have hndP : (alistKeys rowP.rowSpanMap).Nodup :=
      createDataGo_maps_nodup opts 0 (r + j') none rowP hnodup
        (fun rr hrr => by simp at hrr) hgetP
    have hlt : r + j' + 1 < opts.length := by omega
    obtain ⟨o2, ho2⟩ := get?_some_of_lt opts (r + j' + 1) hlt
    have hstep := createDataGo_get_succ opts 0 (r + j') none rowP hgetP
    rw [ho2] at hstep
    have harith : 0 + (r + j') + 1 = r + (j' + 1) := by omega
    rw [harith] at hstep
    simp only [Option.map_some'] at hstep
    have hget2 : (createData opts).get? (r + (j' + 1)) =
        some (createRawRow o2 (r + (j' + 1)) (some rowP)) := hstep
    by_cases hj0 : j' = 0
    · subst hj0
      rw [if_pos rfl] at hfindP
      have hsub := createSubRowSpan_find_some rowP.rowSpanMap c
        (RowSpan.mk true r k k) hndP hfindP
      dsimp only at hsub
      rw [if_pos (by omega), if_pos (by omega)] at hsub
      rw [spanAt_of_get _ _ _ _ hget2]
      show alistFind (createRowSpanMap o2.rowSpan (r + (0 + 1)) (some rowP)) c = _
      rw [createRowSpanMap_find_subsome _ _ _ _ _ hsub]
      rw [if_neg (by omega)]
      have hc1 : ((0 + 1 : Nat) : Int) = 1 := by norm_num
      rw [hc1]
      rfl
    · rw [if_neg hj0] at hfindP
      have hsub := createSubRowSpan_find_some rowP.rowSpanMap c
        (RowSpan.mk false r (-(j' : Int)) k) hndP hfindP
      dsimp only at hsub
      rw [if_pos (by omega), if_neg (by omega)] at hsub
      rw [spanAt_of_get _ _ _ _ hget2]
      show alistFind (createRowSpanMap o2.rowSpan (r + (j' + 1)) (some rowP)) c = _
      rw [createRowSpanMap_find_subsome _ _ _ _ _ hsub]
      rw [if_neg (by omega)]
      have hc2 : -(j' : Int) - 1 = -((j' + 1 : Nat) : Int) := by push_cast; ring
      rw [hc2]
      rfl

theorem createData_span_dead (opts : List OptRow) (r kn : Nat) (k : Int) (c : String) (o : OptRow)
    (hnodup : ∀ o' ∈ opts, (alistKeys o'.rowSpan).Nodup)
    (ho : opts.get? r = some o)
    (hk : alistFind o.rowSpan c = some k)
    (hkn : (kn : Int) = k) (hk2 : 2 ≤ kn)
    (hlen : r + kn ≤ opts.length)
    (hcov : r = 0 ∨ ∃ prow, (createData opts).get? (r - 1) = some prow ∧
      alistFind (createSubRowSpan prow.rowSpanMap) c = none) :
    ∀ i, r + kn ≤ i → ∀ rs, spanAt (createData opts) i c = some rs → rs.mainRowKey ≠ r := by
  have chain := createData_span_chain opts r kn k c o hnodup ho hk hkn hk2 hlen hcov
  intro i hi
  induction i, hi using Nat.le_induction with
  | base =>
    intro rs hrs
    have hlast := chain (kn - 1) (le_refl _)
    rw [if_neg (by omega)] at hlast
    obtain ⟨rowP, hgetP, hfindP⟩ := spanAt_inv _ _ _ _ hlast
    have hndP : (alistKeys rowP.rowSpanMap).Nodup :=
      createDataGo_maps_nodup opts 0 (r + (kn - 1)) none rowP hnodup
        (fun rr hrr => by simp at hrr) hgetP
    have hsub := createSubRowSpan_find_some rowP.rowSpanMap c
      (RowSpan.mk false r (-((kn - 1 : Nat) : Int)) k) hndP hfindP
    dsimp only at hsub
    rw [if_neg (by omega)] at hsub
    obtain ⟨row2, hget2, hfind2⟩ := spanAt_inv _ _ _ _ hrs
    have hstep := createDataGo_get_succ opts 0 (r + (kn - 1)) none rowP hgetP
    have harith : r + (kn - 1) + 1 = r + kn := by omega
    rw [harith] at hstep
    have harith2 : 0 + (r + (kn - 1)) + 1 = r + kn := by omega
    rw [harith2] at hstep
    have hstep' : (createData opts).get? (r + kn) =
        (opts.get? (r + kn)).map (fun o' => createRawRow o' (r + kn) (some rowP)) := hstep
    rw [hstep'] at hget2
    cases hop2 : opts.get? (r + kn) with
    | none =>
      rw [hop2] at hget2
      simp at hget2
    | some o2 =>
      rw [hop2] at hget2
      simp only [Option.map_some'] at hget2
      have hrow2 : row2 = createRawRow o2 (r + kn) (some rowP) := (Option.some.inj hget2).symm
      subst hrow2
      have hfind2' : alistFind (createRowSpanMap o2.rowSpan (r + kn) (some rowP)) c =
          some rs := hfind2
      rw [createRowSpanMap_find_subnone _ _ _ _ hsub] at hfind2'
      cases hv : alistFind o2.rowSpan c with
      | none =>
        rw [hv] at hfind2'
        simp at hfind2'
      | some v =>
        rw [hv] at hfind2'
        simp only [Option.map_some'] at hfind2'
        have heq := Option.some.inj hfind2'
        subst heq
        show r + kn ≠ r
        omega
  | succ i hi ih =>
    intro rs hrs
    obtain ⟨row2, hget2, hfind2⟩ := spanAt_inv _ _ _ _ hrs
    have hilt : i < (createData opts).length := by
      have := lt_of_get?_some _ _ _ hget2
      omega
    obtain ⟨rowI, hgetI⟩ := get?_some_of_lt (createData opts) i hilt
    have hndI : (alistKeys rowI.rowSpanMap).Nodup :=
      createDataGo_maps_nodup opts 0 i none rowI hnodup
        (fun rr hrr => by simp at hrr) hgetI
    have hstep := createDataGo_get_succ opts 0 i none rowI hgetI
    have harith : 0 + i + 1 = i + 1 := by omega
    rw [harith] at hstep
    have hstep' : (createData opts).get? (i + 1) =
        (opts.get? (i + 1)).map (fun o' => createRawRow o' (i + 1) (some rowI)) := hstep
    rw [hstep'] at hget2
    cases hop2 : opts.get? (i + 1) with
    | none =>
      rw [hop2] at hget2
      simp at hget2
    | some o2 =>
      rw [hop2] at hget2
      simp only [Option.map_some'] at hget2
      have hrow2 : row2 = createRawRow o2 (i + 1) (some rowI) := (Option.some.inj hget2).symm
      subst hrow2
      have hfind2' : alistFind (createRowSpanMap o2.rowSpan (i + 1) (some rowI)) c =
          some rs := hfind2
      cases hfI : alistFind rowI.rowSpanMap c with
      | none =>
        have hsubnone := createSubRowSpan_find_none rowI.rowSpanMap c hfI
        rw [createRowSpanMap_find_subnone _ _ _ _ hsubnone] at hfind2'
        cases hv : alistFind o2.rowSpan c with
        | none =>
          rw [hv] at hfind2'
          simp at hfind2'
        | some v =>
          rw [hv] at hfind2'
          simp only [Option.map_some'] at hfind2'
          have heq := Option.some.inj hfind2'
          subst heq
          show i + 1 ≠ r
          omega
      | some p =>
        have hsub := createSubRowSpan_find_some rowI.rowSpanMap c p hndI hfI
        by_cases hcond : 1 - p.count < p.spanCount
        · rw [if_pos hcond] at hsub
          rw [createRowSpanMap_find_subsome _ _ _ _ _ hsub] at hfind2'
          have heq := Option.some.inj hfind2'
          subst heq
          show p.mainRowKey ≠ r
          exact ih p (by rw [spanAt_of_get _ _ _ _ hgetI]; exact hfI)
        · rw [if_neg hcond] at hsub
          rw [createRowSpanMap_find_subnone _ _ _ _ hsub] at hfind2'
          cases hv : alistFind o2.rowSpan c with
          | none =>
            rw [hv] at hfind2'
            simp at hfind2'
          | some v =>
            rw [hv] at hfind2'
            simp only [Option.map_some'] at hfind2'
            have heq := Option.some.inj hfind2'
            subst heq
            show i + 1 ≠ r
            omega

/-- C1 (amended).  In a dataset built in one forward pass by `createData`,
let row `r` declare a span of size `k ≥ 2` on column `c` with at least
`k-1` rows following, and let row `r` not itself be covered by a span on
`c` continuing from the previous row (without this proviso the claim fails:
an overlapping declaration is silently overridden by the inherited sub
entry, see the counterexample).  Then row `r`'s rowKey is `r`; its entry on
`c` is the unique main entry `(mainRow = true, mainRowKey = r, count = k,
spanCount = k)`; each row `r+j` for `1 ≤ j ≤ k-1` carries the sub entry
`(false, r, -j, k)`; and the rows whose `c` entry has `mainRowKey = r` are
exactly the contiguous block `r .. r+k-1` headed by row `r`. -/
theorem C1_span_construction_invariant (opts : List OptRow) (r kn : Nat) (k : Int)
    (c : String) (o : OptRow)
    (hnodup : ∀ o' ∈ opts, (alistKeys o'.rowSpan).Nodup)
    (ho : opts.get? r = some o)
    (hk : alistFind o.rowSpan c = some k)
    (hkn : (kn : Int) = k) (hk2 : 2 ≤ kn)
    (hlen : r + kn ≤ opts.length)
    (hcov : r = 0 ∨ ∃ prow, (createData opts).get? (r - 1) = some prow ∧
      alistFind (createSubRowSpan prow.rowSpanMap) c = none) :
    (∀ row, (createData opts).get? r = some row → row.rowKey = r) ∧
    spanAt (createData opts) r c = some (RowSpan.mk true r k k) ∧
    (∀ j, 1 ≤ j → j ≤ kn - 1 →
      spanAt (createData opts) (r + j) c = some (RowSpan.mk false r (-(j : Int)) k)) ∧
    (∀ i rs, spanAt (createData opts) i c = some rs → rs.mainRowKey = r →
      r ≤ i ∧ i ≤ r + kn - 1) := by
  have chain := createData_span_chain opts r kn k c o hnodup ho hk hkn hk2 hlen hcov
  have dead := createData_span_dead opts r kn k c o hnodup ho hk hkn hk2 hlen hcov
  refine ⟨?_, ?_, ?_, ?_⟩
  · intro row hrow
    have := createDataGo_rowKey opts 0 r none row hrow
    omega
  · have h0 := chain 0 (by omega)
    rw [if_pos rfl] at h0
    exact h0
  · intro j h1 h2
    have hh := chain j h2
    rw [if_neg (by omega)] at hh
    exact hh
  · intro i rs hrs hmain
    constructor
    · by_contra hlt
      push_neg at hlt
      obtain ⟨row, hrow, hfind⟩ := spanAt_inv _ _ _ _ hrs
      have hle := createDataGo_mainRowKey_le opts 0 i none row
        (fun rr hrr => by simp at hrr) hrow c rs (alistFind_mem _ _ _ hfind)
      omega
    · by_contra hgt
      push_neg at hgt
      exact dead i (by omega) rs hrs hmain

/-- C1 counterexample: overlapping declarations break the unconditional
claim.  Row 0 declares span 3 on `"c"`, row 1 declares span 2 on `"c"`
with one row following, yet after the forward pass row 1's entry is the
inherited sub entry `(false, 0, -1, 3)` of row 0's span — no row at all
receives an entry with `mainRow = true` and `mainRowKey = 1`, so the
declared row-1 span of size 2 violates the claimed invariant. -/
theorem C1_counterexample :
    alistFind (OptRow.mk [("c", 2)] []).rowSpan "c" = some 2 ∧
    2 ≤ (3 : Nat) ∧
    spanAt (createData [OptRow.mk [("c", 3)] [], OptRow.mk [("c", 2)] [], OptRow.mk [] []])
      0 "c" = some (RowSpan.mk true 0 3 3) ∧
    spanAt (createData [OptRow.mk [("c", 3)] [], OptRow.mk [("c", 2)] [], OptRow.mk [] []])
      1 "c" = some (RowSpan.mk false 0 (-1) 3) ∧
    spanAt (createData [OptRow.mk [("c", 3)] [], OptRow.mk [("c", 2)] [], OptRow.mk [] []])
      2 "c" = some (RowSpan.mk false 0 (-2) 3) := by
  refine ⟨rfl, by decide, rfl, rfl, rfl⟩

theorem C1_witness :
    spanAt (createData [OptRow.mk [("c", 2)] [], OptRow.mk [] []]) 0 "c" =
      some (RowSpan.mk true 0 2 2) ∧
    spanAt (createData [OptRow.mk [("c", 2)] [], OptRow.mk [] []]) (0 + 1) "c" =
      some (RowSpan.mk false 0 (-((1 : Nat) : Int)) 2) ∧
    (0 ≤ 1 ∧ 1 ≤ 0 + 2 - 1) := by
  have h := C1_span_construction_invariant
    [OptRow.mk [("c", 2)] [], OptRow.mk [] []] 0 2 2 "c" (OptRow.mk [("c", 2)] [])
    (by decide) rfl rfl rfl (by decide) (by decide) (Or.inl rfl)
  exact ⟨h.2.1, h.2.2.1 1 (by decide) (by decide),
    h.2.2.2 1 (RowSpan.mk false 0 (-1) 2) (h.2.2.1 1 (by decide) (by decide)) rfl⟩
